import Mathlib

/-!
# Verification of the `runnable` graph-orchestration engine

This development gives a shallow embedding, in Lean 4, of the core of the
`tokenring-ai/runnable` package:

* the structural type-compatibility validator (`src/schema-validator.ts`),
* the graph model and its construction operations (`src/graph.js`, which
  contains two implementations: a legacy JS one and the current TS one;
  where the two differ, the embedding of each is kept in its own namespace),
* the sequential execution scheduler, node execution, output assembly and
  the persistence/resume layer of the TS implementation.

JavaScript values flowing through the engine are modelled by `JsValue`;
JS objects and `Map`s become insertion-ordered association lists, JS `Set`s
become duplicate-free lists, and exceptions become `Except`/`Option String`
results that also carry the state mutated before the throw (JS exceptions
do not roll back mutations).

Theorems named `cN_...` settle the correspondingly numbered specification
claims.
-/

set_option maxHeartbeats 1000000

namespace Runnable

/-- A primitive JS value, as compared by `===` in enum/literal checks. -/
inductive JsPrim where
  | str (s : String)
  | num (n : Int)
  | bool (b : Bool)
deriving DecidableEq, Repr

/-- A JavaScript value as it flows through the graph engine.  Objects and
their key order are significant (the engine reads keys and key counts). -/
inductive JsValue where
  | undef
  | nullv
  | str (s : String)
  | num (n : Int)
  | bool (b : Bool)
  | arr (elems : List JsValue)
  | obj (fields : List (String × JsValue))
deriving Repr

/-- JS object property read (`v[k]`): `none` models `undefined`/absence.
First matching key wins, as in a JS object (keys are unique there). -/
def jsGet : JsValue → String → Option JsValue
  | .obj fields, k => fields.lookup k
  | _, _ => none

/-- `k in v` for a JS object. -/
def jsHasKey (v : JsValue) (k : String) : Bool :=
  (jsGet v k).isSome

/-- `Object.keys(v)` for a JS object (empty for non-objects). -/
def jsKeys : JsValue → List String
  | .obj fields => fields.map Prod.fst
  | _ => []

/-- `typeof v === "object" && v !== null`. -/
def jsIsObject : JsValue → Bool
  | .obj _ => true
  | .arr _ => true
  | .nullv => false
  | _ => false

/-- Assignment `m[k] = v` on an insertion-ordered association list
(JS object / `Map` semantics: replace in place, else append). -/
def assocSet {β : Type _} : List (String × β) → String → β → List (String × β)
  | [], k, v => [(k, v)]
  | (k', v') :: rest, k, v =>
    if k' = k then (k', v) :: rest else (k', v') :: assocSet rest k v

/-- `Set.add` on a duplicate-free list (JS `Set` semantics). -/
def setAdd (s : List String) (x : String) : List String :=
  if x ∈ s then s else s ++ [x]

/-- Splitting a character list on `'.'`, with the semantics of JS
`String.prototype.split('.')` (empty segments preserved). -/
def splitOnDot : List Char → List (List Char)
  | [] => [[]]
  | c :: rest =>
    let r := splitOnDot rest
    if c = '.' then [] :: r
    else
      match r with
      | seg :: segs => (c :: seg) :: segs
      | [] => [[c]]

/-- `const [a, b] = s.split(".")`: the first two components of a split on
`"."` (`b` defaults to the empty string where JS would see `undefined`;
the engine's mapping strings always contain a dot). -/
def jsSplit2 (s : String) : String × String :=
  let parts := splitOnDot s.data
  (String.mk (parts.headD []), String.mk ((parts.drop 1).headD []))

/-! ## Structural type descriptors (`src/schema-validator.ts`)

`SchemaInfo` is the descriptor record `extractSchemaInfo` produces: a base
`type` string plus `optional`/`nullable` flags and the optional structural
payloads.  Absent payload fields are `none`, mirroring `undefined`. -/

/-- The descriptor record of `schema-validator.ts` (`SchemaInfo`). -/
inductive SchemaInfo where
  | mk
    (type : String)
    (optional : Bool)
    (nullable : Bool)
    (properties : Option (List (String × SchemaInfo)))
    (element : Option SchemaInfo)
    (union : Option (List SchemaInfo))
    (enumVals : Option (List JsPrim))
    (literal : Option JsPrim)
deriving Repr

namespace SchemaInfo

def type : SchemaInfo → String
  | .mk t _ _ _ _ _ _ _ => t

def optional : SchemaInfo → Bool
  | .mk _ o _ _ _ _ _ _ => o

def nullable : SchemaInfo → Bool
  | .mk _ _ n _ _ _ _ _ => n

def properties : SchemaInfo → Option (List (String × SchemaInfo))
  | .mk _ _ _ p _ _ _ _ => p

def element : SchemaInfo → Option SchemaInfo
  | .mk _ _ _ _ e _ _ _ => e

def union : SchemaInfo → Option (List SchemaInfo)
  | .mk _ _ _ _ _ u _ _ => u

def enumVals : SchemaInfo → Option (List JsPrim)
  | .mk _ _ _ _ _ _ e _ => e

def literal : SchemaInfo → Option JsPrim
  | .mk _ _ _ _ _ _ _ l => l

/-- A plain descriptor with only a base type, as `extractSchemaInfo`
returns for primitives: `{type, optional: false, nullable: false}`. -/
def basic (t : String) : SchemaInfo :=
  .mk t false false none none none none none

end SchemaInfo

/-- `ValidationResult`: `{compatible, warnings, errors}`. -/
structure ValidationResult where
  compatible : Bool
  warnings : List String
  errors : List String
deriving Repr

/-- `areBasicTypesCompatible` from `schema-validator.ts`, transcribed
branch by branch. -/
def areBasicTypesCompatible (outputType inputType : String) : Bool :=
  -- Any and unknown are compatible with everything
  if outputType = "any" || inputType = "any" ||
      outputType = "unknown" || inputType = "unknown" then
    true
  -- Union types require special handling in the calling code
  else if outputType = "union" then
    true
  -- Exact match
  else if outputType = inputType then
    true
  else
    -- Special compatibility rules, keyed on the input type
    match inputType with
    | "string" => outputType = "number" || outputType = "boolean"
    | "number" => outputType = "number"
    | "boolean" => outputType = "boolean"
    | "date" => outputType = "string" || outputType = "date"
    | "array" => outputType = "array"
    | "object" => outputType = "object"
    | _ => false

/-- The base kinds `extractSchemaInfo` can produce that are neither the
union kind nor a wildcard (`any`/`unknown`). -/
def basicKinds : List String :=
  ["string", "number", "boolean", "date", "array", "object",
   "enum", "literal", "void", "undefined", "null"]

/-- Stringification of a primitive value inside a JS template literal. -/
def JsPrim.render : JsPrim → String
  | .str s => s
  | .num n => toString n
  | .bool b => if b then "true" else "false"

/-- Merging a sub-result into an accumulated result: the source pushes the
sub-result's warnings and errors and clears `compatible` when the
sub-result is incompatible. -/
def ValidationResult.merge (r sub : ValidationResult) : ValidationResult :=
  { compatible := r.compatible && sub.compatible,
    warnings := r.warnings ++ sub.warnings,
    errors := r.errors ++ sub.errors }

/-- The all-clear result `{compatible: true, warnings: [], errors: []}`. -/
def ValidationResult.ok : ValidationResult :=
  { compatible := true, warnings := [], errors := [] }

/-- `validateEnumCompatibility` from `schema-validator.ts`. -/
def validateEnumCompatibility (outputSchema inputSchema : SchemaInfo) :
    ValidationResult :=
  match outputSchema.enumVals, inputSchema.enumVals with
  | some outputEnum, some inputEnum =>
    let commonValues := outputEnum.filter (fun v => inputEnum.contains v)
    if commonValues.length = 0 then
      { compatible := false, warnings := [],
        errors := ["Output and input enums have no common values"] }
    else
      let missingValues := inputEnum.filter (fun v => !outputEnum.contains v)
      let extraValues := outputEnum.filter (fun v => !inputEnum.contains v)
      if (missingValues.length > 0 || extraValues.length > 0) &&
          commonValues.length > 0 then
        { compatible := true,
          warnings := ["Output and input enums contain different sets of values"],
          errors := [] }
      else ValidationResult.ok
  | _, _ =>
    { compatible := true,
      warnings := ["Enum values not available for detailed validation"],
      errors := [] }

/-- `validateLiteralCompatibility` from `schema-validator.ts`. -/
def validateLiteralCompatibility (outputSchema inputSchema : SchemaInfo) :
    ValidationResult :=
  match outputSchema.literal, inputSchema.literal with
  | some lo, some li =>
    if lo ≠ li then
      { compatible := false, warnings := [],
        errors := ["Literal values don't match: output '" ++ lo.render ++
                   "' vs input '" ++ li.render ++ "'"] }
    else ValidationResult.ok
  | _, _ =>
    { compatible := true,
      warnings := ["Literal values not available for detailed validation"],
      errors := [] }

theorem sizeOf_lt_of_lookup {k : String} :
    ∀ {ps : List (String × SchemaInfo)} {v : SchemaInfo},
      ps.lookup k = some v → sizeOf v < sizeOf ps := by
  intro ps
  induction ps with
  | nil => intro v h; simp [List.lookup] at h
  | cons p rest ih =>
    intro v h
    obtain ⟨k', v'⟩ := p
    rw [List.lookup] at h
    by_cases hk : k == k'
    · simp [hk] at h
      subst h
      simp
      omega
    · simp [hk] at h
      have := ih h
      simp
      omega

theorem SchemaInfo.sizeOf_union_getD_lt (s : SchemaInfo) :
    sizeOf (s.union.getD []) < sizeOf s := by
  obtain ⟨t, o, n, p, e, u, ev, l⟩ := s
  cases u <;> simp [SchemaInfo.union, Option.getD] <;> omega

theorem SchemaInfo.sizeOf_properties_lt {s : SchemaInfo}
    {l : List (String × SchemaInfo)} (h : s.properties = some l) :
    sizeOf l < sizeOf s := by
  obtain ⟨t, o, n, p, e, u, ev, lit⟩ := s
  simp [SchemaInfo.properties] at h
  subst h
  simp
  omega

theorem SchemaInfo.sizeOf_element_lt {s : SchemaInfo} {e : SchemaInfo}
    (h : s.element = some e) : sizeOf e < sizeOf s := by
  obtain ⟨t, o, n, p, el, u, ev, lit⟩ := s
  simp [SchemaInfo.element] at h
  subst h
  simp
  omega

theorem SchemaInfo.sizeOf_union_lt {s : SchemaInfo} {l : List SchemaInfo}
    (h : s.union = some l) : sizeOf l < sizeOf s := by
  obtain ⟨t, o, n, p, el, u, ev, lit⟩ := s
  simp [SchemaInfo.union] at h
  subst h
  simp
  omega

mutual

/-- `validateSchemaCompatibility` from `schema-validator.ts`: the recursive
structural comparison of two descriptors. -/
def validateSchemaCompatibility (outputSchema inputSchema : SchemaInfo) :
    ValidationResult :=
  -- Handle void/undefined types - they only work with optional inputs
  if outputSchema.type = "void" || outputSchema.type = "undefined" then
    if inputSchema.optional then ValidationResult.ok
    else
      { compatible := false, warnings := [],
        errors := ["Output is void/undefined but input is required"] }
  else
    -- Handle nullable and optional cases
    let nullErrors :=
      if outputSchema.nullable && !inputSchema.nullable then
        ["Output can be null but input does not accept null"]
      else []
    let optWarnings :=
      if !inputSchema.optional && outputSchema.optional then
        ["Output is optional but input is required"]
      else []
    let base : ValidationResult :=
      { compatible := nullErrors.isEmpty, warnings := optWarnings,
        errors := nullErrors }
    -- Validate basic type compatibility
    if !areBasicTypesCompatible outputSchema.type inputSchema.type then
      { compatible := false, warnings := base.warnings,
        errors := base.errors ++
          ["Incompatible types: Output type '" ++ outputSchema.type ++
           "' is not compatible with input type '" ++ inputSchema.type ++ "'"] }
    -- Special case for output union types
    else if outputSchema.type = "union" then
      if inputSchema.type = "union" then
        base.merge (validateUnionCompatibility outputSchema inputSchema)
      else
        -- Output is union, input is simple type (inline loop in the source)
        if unionOptionMatches (outputSchema.union.getD []) inputSchema then
          { compatible := base.compatible,
            warnings := base.warnings ++
              ["Found compatible option in output union for input type '" ++
               inputSchema.type ++ "'"],
            errors := base.errors }
        else
          { compatible := false, warnings := base.warnings,
            errors := base.errors ++
              ["No compatible option in output union for input type '" ++
               inputSchema.type ++ "'"] }
    else
      -- Handle deeper validation based on schema type
      match inputSchema.type with
      | "object" =>
        if outputSchema.type = "object" then
          base.merge (validateObjectCompatibility outputSchema inputSchema)
        else base
      | "array" =>
        if outputSchema.type = "array" then
          base.merge (validateArrayCompatibility outputSchema inputSchema)
        else base
      | "enum" =>
        if outputSchema.type = "enum" then
          base.merge (validateEnumCompatibility outputSchema inputSchema)
        else base
      | "union" =>
        { compatible := base.compatible,
          warnings := base.warnings ++
            ["Union options not available for detailed validation"],
          errors := base.errors }
      | "literal" =>
        if outputSchema.type = "literal" then
          base.merge (validateLiteralCompatibility outputSchema inputSchema)
        else base
      | _ => base
termination_by (sizeOf outputSchema + sizeOf inputSchema) * 2 + 1
decreasing_by
  all_goals simp_wf
  all_goals have := SchemaInfo.sizeOf_union_getD_lt outputSchema
  all_goals omega

/-- `validateObjectCompatibility` from `schema-validator.ts`. -/
def validateObjectCompatibility (outputSchema inputSchema : SchemaInfo) :
    ValidationResult :=
  match ho : outputSchema.properties, hi : inputSchema.properties with
  | some oprops, some iprops =>
    let propsResult := validateObjectProps oprops iprops
    -- Also check for extra properties in output not required by input
    let extraWarnings :=
      (oprops.filter (fun p => (iprops.lookup p.1).isNone)).map
        (fun p => "Output property '" ++ p.1 ++ "' is not used by input schema")
    { compatible := propsResult.compatible,
      warnings := propsResult.warnings ++ extraWarnings,
      errors := propsResult.errors }
  | _, _ =>
    { compatible := true,
      warnings := ["Object schema properties not available for detailed validation"],
      errors := [] }
termination_by (sizeOf outputSchema + sizeOf inputSchema) * 2
decreasing_by
  all_goals simp_wf
  all_goals have h1 := SchemaInfo.sizeOf_properties_lt ho
  all_goals have h2 := SchemaInfo.sizeOf_properties_lt hi
  all_goals omega

/-- The loop of `validateObjectCompatibility` over the input properties. -/
def validateObjectProps (oprops : List (String × SchemaInfo)) :
    List (String × SchemaInfo) → ValidationResult
  | [] => ValidationResult.ok
  | (inputKey, inputProp) :: rest =>
    let head : ValidationResult :=
      match hl : oprops.lookup inputKey with
      | none =>
        if !inputProp.optional then
          { compatible := false, warnings := [],
            errors := ["Required input property '" ++ inputKey ++
                       "' is not provided by output schema"] }
        else
          { compatible := true,
            warnings := ["Optional input property '" ++ inputKey ++
                         "' is not provided by output schema"],
            errors := [] }
      | some outputProp =>
        -- Recursively validate property compatibility
        let propResult := validateSchemaCompatibility outputProp inputProp
        if !propResult.compatible then
          { compatible := false, warnings := propResult.warnings,
            errors := ["Property '" ++ inputKey ++
                       "' has incompatible types: output is " ++ outputProp.type ++
                       ", input is " ++ inputProp.type] ++ propResult.errors }
        else
          { compatible := true, warnings := propResult.warnings,
            errors := propResult.errors }
    let tail := validateObjectProps oprops rest
    { compatible := head.compatible && tail.compatible,
      warnings := head.warnings ++ tail.warnings,
      errors := head.errors ++ tail.errors }
termination_by l => (sizeOf oprops + sizeOf l) * 2
decreasing_by
  all_goals simp_wf
  all_goals try have h1 := sizeOf_lt_of_lookup hl
  all_goals try simp
  all_goals omega

/-- `validateArrayCompatibility` from `schema-validator.ts`. -/
def validateArrayCompatibility (outputSchema inputSchema : SchemaInfo) :
    ValidationResult :=
  match ho : outputSchema.element, hi : inputSchema.element with
  | some oelem, some ielem =>
    let elementResult := validateSchemaCompatibility oelem ielem
    if !elementResult.compatible then
      { compatible := false, warnings := elementResult.warnings,
        errors := ["Array element type incompatibility: " ++ oelem.type ++
                   " is not compatible with " ++ ielem.type] ++
                  elementResult.errors }
    else
      { compatible := true, warnings := elementResult.warnings,
        errors := elementResult.errors }
  | _, _ =>
    { compatible := true,
      warnings := ["Array element schema not available for detailed validation"],
      errors := [] }
termination_by (sizeOf outputSchema + sizeOf inputSchema) * 2
decreasing_by
  simp_wf
  have h1 := SchemaInfo.sizeOf_element_lt ho
  have h2 := SchemaInfo.sizeOf_element_lt hi
  omega

/-- `validateUnionCompatibility` from `schema-validator.ts`. -/
def validateUnionCompatibility (outputSchema inputSchema : SchemaInfo) :
    ValidationResult :=
  match ho : outputSchema.union, hi : inputSchema.union with
  -- Case 1: Both input and output are unions
  | some ooptions, some ioptions => validateUnionConsumerAlts ooptions ioptions
  -- Case 2: Output is union, input is simple type
  | some ooptions, none =>
    if unionOptionMatches ooptions inputSchema then
      { compatible := true,
        warnings := ["Found compatible option in output union for input type '" ++
                     inputSchema.type ++ "'"],
        errors := [] }
    else
      { compatible := false, warnings := [],
        errors := ["No compatible option in output union for input type '" ++
                   inputSchema.type ++ "'"] }
  -- Case 3: Input is union, output is simple type
  | none, some _ =>
    { compatible := true,
      warnings := ["Union options not available for detailed validation"],
      errors := [] }
  | none, none => ValidationResult.ok
termination_by (sizeOf outputSchema + sizeOf inputSchema) * 2
decreasing_by
  all_goals simp_wf
  all_goals have h1 := SchemaInfo.sizeOf_union_lt ho
  · have h2 := SchemaInfo.sizeOf_union_lt hi
    omega
  · omega

/-- The outer loop of union/union validation: every consumer alternative
must be matched by at least one producer alternative. -/
def validateUnionConsumerAlts (ooptions : List SchemaInfo) :
    List SchemaInfo → ValidationResult
  | [] => ValidationResult.ok
  | inputType :: rest =>
    let head : ValidationResult :=
      if unionOptionMatches ooptions inputType then ValidationResult.ok
      else
        { compatible := false, warnings := [],
          errors := ["No compatible option in output union for input type '" ++
                     inputType.type ++ "'"] }
    let tail := validateUnionConsumerAlts ooptions rest
    { compatible := head.compatible && tail.compatible,
      warnings := head.warnings ++ tail.warnings,
      errors := head.errors ++ tail.errors }
termination_by l => (sizeOf ooptions + sizeOf l) * 2
decreasing_by
  all_goals simp_wf
  all_goals try simp
  all_goals omega

/-- The producer-union search loop (`hasCompatible`/`break`): does some
producer alternative satisfy the consumer? -/
def unionOptionMatches : List SchemaInfo → SchemaInfo → Bool
  | [], _ => false
  | o :: rest, inputSchema =>
    if (validateSchemaCompatibility o inputSchema).compatible then true
    else unionOptionMatches rest inputSchema
termination_by opts i => (sizeOf opts + sizeOf i) * 2
decreasing_by
  all_goals simp_wf
  all_goals try simp
  all_goals omega

end

/-! ### Zod schemas and `extractSchemaInfo` -/

/-- The Zod schema AST as far as `extractSchemaInfo` inspects it
(`_def.typeName` plus the payload each branch reads).  `unrecognized`
stands for any other Zod type, which degrades to kind `unknown`. -/
inductive ZodType where
  | string
  | number
  | boolean
  | date
  | array (element : ZodType)
  | object (shape : List (String × ZodType))
  | union (options : List ZodType)
  | enumT (values : List JsPrim)
  | literal (value : JsPrim)
  | any
  | unknown
  | voidT
  | undefinedT
  | nullT
  | optional (inner : ZodType)
  | nullable (inner : ZodType)
  | defaultT (inner : ZodType)
  | unrecognized
deriving Repr

/-- `{...innerInfo, optional: true}`. -/
def SchemaInfo.withOptional : SchemaInfo → SchemaInfo
  | .mk t _ n p e u ev l => .mk t true n p e u ev l

/-- `{...innerInfo, nullable: true}`. -/
def SchemaInfo.withNullable : SchemaInfo → SchemaInfo
  | .mk t o _ p e u ev l => .mk t o true p e u ev l

/-- `extractSchemaInfo` from `schema-validator.ts`. -/
def extractSchemaInfo : ZodType → SchemaInfo
  | .optional inner => (extractSchemaInfo inner).withOptional
  | .nullable inner => (extractSchemaInfo inner).withNullable
  | .defaultT inner => (extractSchemaInfo inner).withOptional
  | .string => .basic "string"
  | .number => .basic "number"
  | .boolean => .basic "boolean"
  | .date => .basic "date"
  | .array el =>
    .mk "array" false false none (some (extractSchemaInfo el)) none none none
  | .object shape =>
    .mk "object" false false
      (some (shape.attach.map (fun p => (p.1.1, extractSchemaInfo p.1.2))))
      none none none none
  | .union opts =>
    .mk "union" false false none none
      (some (opts.attach.map (fun p => extractSchemaInfo p.1))) none none
  | .enumT vs => .mk "enum" false false none none none (some vs) none
  | .literal v => .mk "literal" false false none none none none (some v)
  | .any => .basic "any"
  | .unknown => .basic "unknown"
  | .voidT => .basic "void"
  | .undefinedT => .mk "undefined" true false none none none none none
  | .nullT => .mk "null" false true none none none none none
  | .unrecognized => .basic "unknown"
decreasing_by
  all_goals simp_wf
  all_goals try (have hmem := List.sizeOf_lt_of_mem p.2)
  all_goals try simp at hmem
  all_goals first
    | omega
    | (obtain ⟨⟨pk, pv⟩, hp⟩ := p
       have := List.sizeOf_lt_of_mem hp
       simp at this ⊢
       omega)

/-- `validateZodTypeCompatibility` from `schema-validator.ts`: `none`
models a missing (`undefined`) schema argument. -/
def validateZodTypeCompatibility (outputSchema inputSchema : Option ZodType) :
    ValidationResult :=
  match outputSchema, inputSchema with
  | some os, some i =>
    let r := validateSchemaCompatibility (extractSchemaInfo os)
      (extractSchemaInfo i)
    { compatible := r.compatible, warnings := r.warnings, errors := r.errors }
  | _, _ =>
    { compatible := false, warnings := [],
      errors := ["One or both schemas are missing, cannot validate compatibility"] }

/-- `validateSchemaExists` from `schema-validator.ts`. -/
def validateSchemaExists (schema : Option ZodType) (context : String) :
    ValidationResult :=
  match schema with
  | none =>
    { compatible := true, warnings := [context ++ " has no schema defined"],
      errors := [] }
  | some s =>
    if (extractSchemaInfo s).type = "unknown" then
      { compatible := true,
        warnings := ["Schema for " ++ context ++
                     " is of unknown type and may not work as expected"],
        errors := [] }
    else ValidationResult.ok

/-- Claim C5, counterexample: the claim's table (identical kinds,
`number`→`string`, `boolean`→`string`, everything else incompatible) is
violated at the pair (`string` producer, `date` consumer), which the code
accepts. -/
theorem c5_counterexample :
    areBasicTypesCompatible "string" "date" = true ∧
    ¬("string" = "date" ∨ ("string" = "number" ∧ "date" = "string") ∨
      ("string" = "boolean" ∧ "date" = "string")) := by
  decide

/-- Claim C5, amended: for every pair of non-union, non-wildcard basic
kinds, the basic-kind check accepts exactly identical kinds,
`number`→`string`, `boolean`→`string`, and `string`→`date`; every other
cross-kind pair is incompatible. -/
theorem c5_basic_kind_table (o i : String)
    (ho : o ∈ basicKinds) (hi : i ∈ basicKinds) :
    areBasicTypesCompatible o i = true ↔
      (o = i ∨ (o = "number" ∧ i = "string") ∨ (o = "boolean" ∧ i = "string") ∨
       (o = "string" ∧ i = "date")) := by
  fin_cases ho <;> fin_cases hi <;> decide

/-- Witness for `c5_basic_kind_table` at the pair (`number`, `string`). -/
theorem c5_basic_kind_table_witness :
    areBasicTypesCompatible "number" "string" = true ↔
      ("number" = "string" ∨ ("number" = "number" ∧ "string" = "string") ∨
       ("number" = "boolean" ∧ "string" = "string") ∨
       ("number" = "string" ∧ "string" = "date")) :=
  c5_basic_kind_table "number" "string" (by decide) (by decide)

/-- The producer-union search equals an existential over the alternatives. -/
theorem unionOptionMatches_eq_any (inputSchema : SchemaInfo) :
    ∀ opts : List SchemaInfo, unionOptionMatches opts inputSchema =
      opts.any (fun oa => (validateSchemaCompatibility oa inputSchema).compatible) := by
  intro opts
  induction opts with
  | nil => simp [unionOptionMatches]
  | cons o rest ih =>
    rw [unionOptionMatches]
    by_cases h : (validateSchemaCompatibility o inputSchema).compatible = true <;>
      simp [h, ih]

/-- The union/union loop is compatible exactly when every consumer
alternative is matched. -/
theorem validateUnionConsumerAlts_compatible (ooptions : List SchemaInfo) :
    ∀ l : List SchemaInfo, (validateUnionConsumerAlts ooptions l).compatible =
      l.all (fun ia => unionOptionMatches ooptions ia) := by
  intro l
  induction l with
  | nil => simp [validateUnionConsumerAlts, ValidationResult.ok]
  | cons a rest ih =>
    rw [validateUnionConsumerAlts]
    by_cases h : unionOptionMatches ooptions a = true <;>
      simp [h, ih, ValidationResult.ok]

/-- Claim C6, counterexample: a plain `string` producer against the union
consumer `string | number` is reported incompatible, even though the
producer satisfies the first consumer alternative; the basic-kind check
rejects the pair before any union handling runs. -/
theorem c6_counterexample :
    (validateSchemaCompatibility (SchemaInfo.basic "string")
      (SchemaInfo.mk "union" false false none none
        (some [SchemaInfo.basic "string", SchemaInfo.basic "number"])
        none none)).compatible = false ∧
    (validateSchemaCompatibility (SchemaInfo.basic "string")
      (SchemaInfo.basic "string")).compatible = true := by
  constructor <;>
    simp [validateSchemaCompatibility, SchemaInfo.basic, SchemaInfo.type,
      SchemaInfo.optional, SchemaInfo.nullable, SchemaInfo.union,
      areBasicTypesCompatible, ValidationResult.ok, ValidationResult.merge]

/-- Claim C6, amended: a producer that is neither a union, a wildcard, nor
void/undefined is always reported incompatible with a union consumer (the
basic-kind check fires before union handling); when both sides are unions
(and the producer is not nullable against a non-nullable consumer), the
pair is compatible exactly when every consumer alternative is satisfiable
by at least one producer alternative. -/
theorem c6_union_handling (o i : SchemaInfo) :
    (o.type ≠ "union" → o.type ≠ "any" → o.type ≠ "unknown" →
     o.type ≠ "void" → o.type ≠ "undefined" → i.type = "union" →
      (validateSchemaCompatibility o i).compatible = false) ∧
    (∀ oopts iopts, o.type = "union" → i.type = "union" →
      o.union = some oopts → i.union = some iopts →
      (o.nullable && !i.nullable) = false →
      ((validateSchemaCompatibility o i).compatible = true ↔
        ∀ ia ∈ iopts, ∃ oa ∈ oopts,
          (validateSchemaCompatibility oa ia).compatible = true)) := by
  constructor
  · intro hu ha hk hv hd hi
    rw [validateSchemaCompatibility]
    simp [hu, ha, hk, hv, hd, hi, areBasicTypesCompatible]
  · intro oopts iopts hou hiu houn hiun hnn
    have hmain : (validateSchemaCompatibility o i).compatible =
        (validateUnionCompatibility o i).compatible := by
      rw [validateSchemaCompatibility]
      simp [hou, hiu, hnn, areBasicTypesCompatible, ValidationResult.merge]
    rw [hmain, validateUnionCompatibility]
    split
    · rename_i ooptions ioptions ho hi
      rw [houn] at ho
      rw [hiun] at hi
      cases ho
      cases hi
      simp [validateUnionConsumerAlts_compatible, unionOptionMatches_eq_any,
        List.all_eq_true, List.any_eq_true]
    · rename_i ho hi
      rw [hiun] at hi
      exact Option.noConfusion hi
    · rename_i ho hi
      rw [houn] at ho
      exact Option.noConfusion ho
    · rename_i ho hi
      rw [houn] at ho
      exact Option.noConfusion ho

/-- Witness for `c6_union_handling`: both sides the union `string`
(so every consumer alternative is matched). -/
theorem c6_union_handling_witness :
    (validateSchemaCompatibility
        (SchemaInfo.mk "union" false false none none
          (some [SchemaInfo.basic "string"]) none none)
        (SchemaInfo.mk "union" false false none none
          (some [SchemaInfo.basic "string"]) none none)).compatible = true ↔
      ∀ ia ∈ [SchemaInfo.basic "string"], ∃ oa ∈ [SchemaInfo.basic "string"],
        (validateSchemaCompatibility oa ia).compatible = true :=
  (c6_union_handling
    (SchemaInfo.mk "union" false false none none
      (some [SchemaInfo.basic "string"]) none none)
    (SchemaInfo.mk "union" false false none none
      (some [SchemaInfo.basic "string"]) none none)).2
    [SchemaInfo.basic "string"] [SchemaInfo.basic "string"]
    rfl rfl rfl rfl rfl

/-! ### Claim C7: `compatible = false` iff `errors` nonempty -/

/-- The invariant of claim C7 for a single result. -/
def VInv (r : ValidationResult) : Prop :=
  r.compatible = false ↔ r.errors ≠ []

theorem VInv.ok : VInv ValidationResult.ok := by
  simp [VInv, ValidationResult.ok]

theorem VInv.merge {r s : ValidationResult} (hr : VInv r) (hs : VInv s) :
    VInv (r.merge s) := by
  rcases r with ⟨rc, rw_, re⟩
  rcases s with ⟨sc, sw, se⟩
  simp [VInv, ValidationResult.merge] at *
  cases rc <;> cases sc <;> simp_all

theorem validateEnumCompatibility_inv (o i : SchemaInfo) :
    VInv (validateEnumCompatibility o i) := by
  unfold validateEnumCompatibility
  repeat' split
  all_goals simp only [VInv]
  all_goals repeat' split
  all_goals simp_all [ValidationResult.ok]

theorem validateLiteralCompatibility_inv (o i : SchemaInfo) :
    VInv (validateLiteralCompatibility o i) := by
  unfold validateLiteralCompatibility
  repeat' split
  all_goals simp [VInv, ValidationResult.ok]

/-- The combined induction behind claim C7: every validator function keeps
the invariant, at every recursion depth. -/
theorem validator_inv_aux : ∀ n : Nat,
    (∀ o i : SchemaInfo, sizeOf o + sizeOf i ≤ n →
      VInv (validateSchemaCompatibility o i)) ∧
    (∀ op l : List (String × SchemaInfo), sizeOf op + sizeOf l ≤ n →
      VInv (validateObjectProps op l)) ∧
    (∀ oo l : List SchemaInfo, sizeOf oo + sizeOf l ≤ n →
      VInv (validateUnionConsumerAlts oo l)) ∧
    (∀ o i : SchemaInfo, sizeOf o + sizeOf i ≤ n →
      VInv (validateObjectCompatibility o i)) ∧
    (∀ o i : SchemaInfo, sizeOf o + sizeOf i ≤ n →
      VInv (validateArrayCompatibility o i)) ∧
    (∀ o i : SchemaInfo, sizeOf o + sizeOf i ≤ n →
      VInv (validateUnionCompatibility o i)) := by
  intro n
  induction n using Nat.strong_induction_on with
  | _ n ih =>
    have hObjProps : ∀ op l : List (String × SchemaInfo),
        sizeOf op + sizeOf l ≤ n → VInv (validateObjectProps op l) := by
      intro op l hle
      match l with
      | [] =>
        rw [validateObjectProps]
        exact VInv.ok
      | (inputKey, inputProp) :: rest =>
        rw [validateObjectProps]
        have hsznew : sizeOf op + sizeOf rest < n := by
          have : sizeOf rest < sizeOf ((inputKey, inputProp) :: rest) := by
            simp only [List.cons.sizeOf_spec, Prod.mk.sizeOf_spec]
            omega
          omega
        have htail : VInv (validateObjectProps op rest) :=
          (ih _ hsznew).2.1 op rest le_rfl
        have hhead : VInv (match hl : op.lookup inputKey with
          | none =>
            if !inputProp.optional then
              { compatible := false, warnings := [],
                errors := ["Required input property '" ++ inputKey ++
                           "' is not provided by output schema"] }
            else
              { compatible := true,
                warnings := ["Optional input property '" ++ inputKey ++
                             "' is not provided by output schema"],
                errors := [] }
          | some outputProp =>
            let propResult := validateSchemaCompatibility outputProp inputProp
            if !propResult.compatible then
              { compatible := false, warnings := propResult.warnings,
                errors := ["Property '" ++ inputKey ++
                           "' has incompatible types: output is " ++
                           outputProp.type ++ ", input is " ++
                           inputProp.type] ++ propResult.errors }
            else
              { compatible := true, warnings := propResult.warnings,
                errors := propResult.errors }) := by
          split
          · split <;> simp [VInv]
          · rename_i outputProp hl
            have hszp : sizeOf outputProp + sizeOf inputProp < n := by
              have h1 := sizeOf_lt_of_lookup hl
              have h2 : sizeOf inputProp <
                  sizeOf ((inputKey, inputProp) :: rest) := by
                simp; omega
              omega
            have hprop : VInv (validateSchemaCompatibility outputProp inputProp) :=
              (ih _ hszp).1 outputProp inputProp le_rfl
            simp only []
            split
            · simp [VInv]
            · rename_i hc
              simp only [Bool.not_eq_true', Bool.not_eq_false] at hc
              simp [VInv, hc] at hprop ⊢
              exact hprop
        exact VInv.merge hhead htail
    have hAlts : ∀ oo l : List SchemaInfo, sizeOf oo + sizeOf l ≤ n →
        VInv (validateUnionConsumerAlts oo l) := by
      intro oo l hle
      match l with
      | [] =>
        rw [validateUnionConsumerAlts]
        exact VInv.ok
      | a :: rest =>
        rw [validateUnionConsumerAlts]
        have hsznew : sizeOf oo + sizeOf rest < n := by
          have : sizeOf rest < sizeOf (a :: rest) := by
            simp only [List.cons.sizeOf_spec]
            omega
          omega
        have htail : VInv (validateUnionConsumerAlts oo rest) :=
          (ih _ hsznew).2.2.1 oo rest le_rfl
        have hhead : VInv (if unionOptionMatches oo a then ValidationResult.ok
          else
            { compatible := false, warnings := [],
              errors := ["No compatible option in output union for input type '" ++
                         a.type ++ "'"] }) := by
          split
          · exact VInv.ok
          · simp [VInv]
        exact VInv.merge hhead htail
    have hObj : ∀ o i : SchemaInfo, sizeOf o + sizeOf i ≤ n →
        VInv (validateObjectCompatibility o i) := by
      intro o i hle
      rw [validateObjectCompatibility]
      split
      · rename_i oprops iprops ho hi
        have hsz : sizeOf oprops + sizeOf iprops ≤ n := by
          have h1 := SchemaInfo.sizeOf_properties_lt ho
          have h2 := SchemaInfo.sizeOf_properties_lt hi
          omega
        have hp := hObjProps oprops iprops hsz
        rcases hv : validateObjectProps oprops iprops with ⟨pc, pw, pe⟩
        rw [hv] at hp
        simp [VInv] at hp ⊢
        exact hp
      · simp [VInv]
    have hArr : ∀ o i : SchemaInfo, sizeOf o + sizeOf i ≤ n →
        VInv (validateArrayCompatibility o i) := by
      intro o i hle
      rw [validateArrayCompatibility]
      split
      · rename_i oelem ielem ho hi
        have hsz : sizeOf oelem + sizeOf ielem < n := by
          have h1 := SchemaInfo.sizeOf_element_lt ho
          have h2 := SchemaInfo.sizeOf_element_lt hi
          omega
        have he : VInv (validateSchemaCompatibility oelem ielem) :=
          (ih _ hsz).1 oelem ielem le_rfl
        simp only []
        split
        · simp [VInv]
        · rename_i hc
          simp only [Bool.not_eq_true', Bool.not_eq_false] at hc
          simp [VInv, hc] at he ⊢
          exact he
      · simp [VInv]
    have hUnion : ∀ o i : SchemaInfo, sizeOf o + sizeOf i ≤ n →
        VInv (validateUnionCompatibility o i) := by
      intro o i hle
      rw [validateUnionCompatibility]
      split
      · rename_i oopts iopts ho hi
        have hsz : sizeOf oopts + sizeOf iopts ≤ n := by
          have h1 := SchemaInfo.sizeOf_union_lt ho
          have h2 := SchemaInfo.sizeOf_union_lt hi
          omega
        exact hAlts oopts iopts hsz
      · split <;> simp [VInv]
      · simp [VInv]
      · exact VInv.ok
    have hMain : ∀ o i : SchemaInfo, sizeOf o + sizeOf i ≤ n →
        VInv (validateSchemaCompatibility o i) := by
      intro o i hle
      rw [validateSchemaCompatibility]
      split
      · split
        · exact VInv.ok
        · simp [VInv]
      · simp only []
        split
        · rename_i hbasic
          split <;> split <;> simp [VInv]
        · split
          · split
            · exact VInv.merge (by split <;> split <;> simp [VInv])
                (hUnion o i hle)
            · split
              · split <;> split <;> simp [VInv]
              · split <;> split <;> simp [VInv]
          · split
            · split
              · exact VInv.merge (by split <;> split <;> simp [VInv])
                  (hObj o i hle)
              · split <;> split <;> simp [VInv]
            · split
              · exact VInv.merge (by split <;> split <;> simp [VInv])
                  (hArr o i hle)
              · split <;> split <;> simp [VInv]
            · split
              · exact VInv.merge (by split <;> split <;> simp [VInv])
                  (validateEnumCompatibility_inv o i)
              · split <;> split <;> simp [VInv]
            · split <;> split <;> simp [VInv]
            · split
              · exact VInv.merge (by split <;> split <;> simp [VInv])
                  (validateLiteralCompatibility_inv o i)
              · split <;> split <;> simp [VInv]
            · split <;> split <;> simp [VInv]
    exact ⟨hMain, hObjProps, hAlts, hObj, hArr, hUnion⟩

/-- Claim C7: for every pair of type descriptors (and likewise through the
Zod-schema entry point), the returned validation result has
`compatible = false` exactly when its `errors` list is non-empty, so
warnings alone never make a pair incompatible. -/
theorem c7_compatible_iff_errors :
    (∀ o i : SchemaInfo,
      ((validateSchemaCompatibility o i).compatible = false ↔
        (validateSchemaCompatibility o i).errors ≠ [])) ∧
    (∀ zo zi : Option ZodType,
      ((validateZodTypeCompatibility zo zi).compatible = false ↔
        (validateZodTypeCompatibility zo zi).errors ≠ [])) := by
  have hmain : ∀ o i : SchemaInfo, VInv (validateSchemaCompatibility o i) :=
    fun o i => (validator_inv_aux (sizeOf o + sizeOf i)).1 o i le_rfl
  constructor
  · exact fun o i => hmain o i
  · intro zo zi
    match zo, zi with
    | some os, some i =>
      have h := hmain (extractSchemaInfo os) (extractSchemaInfo i)
      simpa [validateZodTypeCompatibility, VInv] using h
    | none, none => simp [validateZodTypeCompatibility]
    | none, some _ => simp [validateZodTypeCompatibility]
    | some _, none => simp [validateZodTypeCompatibility]

/-! ## The graph model (TS implementation, `core/runnable/graph.ts`)

The second implementation contained in `src/graph.js` (the `graph.ts`
variant, which the package's TypeScript entry point exports).  Construction
operations return `(thrown error?, state after the call)`: a JS exception
does not roll back mutations made before the `throw`, so the state is
returned in both cases. -/

/-- The `Runnable` collaborator as the graph consumes it: optional input
and output Zod schemas, plus a deterministic execution function yielding a
list of progress events and then one result or an error. -/
structure Runnable where
  name : String
  inputSchema : Option ZodType
  outputSchema : Option ZodType
  run : JsValue → List JsValue × Except String JsValue

/-- `GraphNode` from `graph.ts`.  `inputMappings` maps an input key to the
string `sourceNodeId ++ "." ++ sourceOutputKey`, exactly as the source
stores it. -/
structure GraphNode where
  id : String
  runnable : Runnable
  inputs : List String
  outputs : List String
  inputMappings : List (String × String)
  optional : Bool

/-- `GraphEdge` from `graph.ts` (`from`/`to` are Lean keywords, hence the
quoted field names). -/
structure GraphEdge where
  «from» : String
  «to» : String
  fromOutput : String
  toInput : String
  transform : Option (JsValue → JsValue)

/-- `RunnableGraph`'s private state plus its options. -/
structure RunnableGraph where
  name : String
  nodes : List (String × GraphNode)
  edges : List GraphEdge
  entryNodes : List String
  exitNodes : List String
  parallel : Bool
  maxConcurrency : Nat
  continueOnError : Bool

/-- Node configuration accepted by `addNode` (`undefined` fields are
`none`). -/
structure NodeConfig where
  inputs : Option (List String) := none
  outputs : Option (List String) := none
  optional : Option Bool := none

/-- Connection configuration accepted by `connect`. -/
structure ConnectConfig where
  fromOutput : Option String := none
  toInput : Option String := none
  transform : Option (JsValue → JsValue) := none

/-- JS truthiness of an optional string option (`undefined` and `""` are
falsy). -/
def strTruthy : Option String → Bool
  | some s => s ≠ ""
  | none => false

/-- `option || defaultValue` for a string option. -/
def strOrDefault (o : Option String) (dflt : String) : String :=
  match o with
  | some s => if s = "" then dflt else s
  | none => dflt

/-- `RunnableGraph.addNode` from `graph.ts`. -/
def RunnableGraph.addNode (g : RunnableGraph) (id : String)
    (runnable : Runnable) (config : NodeConfig) :
    Option String × RunnableGraph :=
  if (g.nodes.lookup id).isSome then
    (some ("Node with id '" ++ id ++ "' already exists"), g)
  else
    -- the `runnable instanceof Runnable` check always holds in the typed model
    let node : GraphNode :=
      { id := id, runnable := runnable,
        inputs := config.inputs.getD ["input"],
        outputs := config.outputs.getD ["output"],
        inputMappings := [], optional := config.optional.getD false }
    (none, { g with nodes := g.nodes ++ [(id, node)] })

/-- `RunnableGraph.connect` from `graph.ts`, with every mutation made
before a potential `throw` reflected in the returned state (JS objects are
mutated in place). -/
def RunnableGraph.connect (g : RunnableGraph) (fromNodeId toNodeId : String)
    (config : ConnectConfig) : Option String × RunnableGraph :=
  match g.nodes.lookup fromNodeId, g.nodes.lookup toNodeId with
  | none, _ => (some ("Source node '" ++ fromNodeId ++ "' does not exist"), g)
  | some _, none => (some ("Target node '" ++ toNodeId ++ "' does not exist"), g)
  | some fromNode, some toNode =>
    let fromOutput := strOrDefault config.fromOutput "output"
    let toInput := strOrDefault config.toInput "input"
    -- Add custom outputs/inputs if they don't exist
    let fromNode1 :=
      if fromNode.outputs.contains fromOutput then fromNode
      else { fromNode with outputs := fromNode.outputs ++ [fromOutput] }
    -- if both ids name the same node, the JS code mutates one shared object
    let toNode0 := if toNodeId = fromNodeId then fromNode1 else toNode
    let toNode1 :=
      if toNode0.inputs.contains toInput then toNode0
      else { toNode0 with inputs := toNode0.inputs ++ [toInput] }
    let g1 := { g with
      nodes := assocSet (assocSet g.nodes fromNodeId fromNode1) toNodeId toNode1 }
    -- Check if this is a multi-output node with specific output
    let isMultiOutput := fromNode1.outputs.length > 1 && strTruthy config.fromOutput
    let schemaErr : Option String :=
      match fromNode1.runnable.outputSchema, toNode1.runnable.inputSchema with
      | some os, some i =>
        if isMultiOutput then none
        else
          let r := validateZodTypeCompatibility (some os) (some i)
          if !r.compatible then
            some ("Schema incompatibility between '" ++ fromNodeId ++
                  "' (output) and '" ++ toNodeId ++ "' (input): " ++
                  String.intercalate ", " r.errors)
          else none
      | _, _ => none
    match schemaErr with
    | some e => (some e, g1)
    | none =>
      -- Create the edge and update the target's input mapping
      let edge : GraphEdge :=
        { «from» := fromNodeId, «to» := toNodeId, fromOutput := fromOutput,
          toInput := toInput, transform := config.transform }
      let toNode2 := { toNode1 with
        inputMappings := assocSet toNode1.inputMappings toInput
          (fromNodeId ++ "." ++ fromOutput) }
      -- #validateSchemas then only emits console warnings (no state change)
      (none, { g1 with nodes := assocSet g1.nodes toNodeId toNode2,
                       edges := g1.edges ++ [edge] })

/-- `RunnableGraph.setEntryNodes` from `graph.ts`. -/
def RunnableGraph.setEntryNodes (g : RunnableGraph) (nodeIds : List String) :
    Option String × RunnableGraph :=
  match nodeIds.find? (fun id => (g.nodes.lookup id).isNone) with
  | some badId => (some ("Entry node '" ++ badId ++ "' does not exist"), g)
  | none => (none, { g with entryNodes := nodeIds })

/-- `RunnableGraph.setExitNodes` from `graph.ts`. -/
def RunnableGraph.setExitNodes (g : RunnableGraph) (nodeIds : List String) :
    Option String × RunnableGraph :=
  match nodeIds.find? (fun id => (g.nodes.lookup id).isNone) with
  | some badId => (some ("Exit node '" ++ badId ++ "' does not exist"), g)
  | none => (none, { g with exitNodes := nodeIds })

theorem lookup_append_right {β : Type _} (k : String) (v : β) :
    ∀ l : List (String × β), l.lookup k = none →
      (l ++ [(k, v)]).lookup k = some v := by
  intro l
  induction l with
  | nil => intro _; simp [List.lookup]
  | cons p rest ih =>
    intro h
    obtain ⟨k', v'⟩ := p
    rw [List.lookup] at h
    rw [List.cons_append, List.lookup]
    cases hk : (k == k') with
    | true => simp [hk] at h
    | false =>
      simp only [hk] at h ⊢
      exact ih h

/-- Claim C9: `addNode` with a config that omits `inputs` and `outputs`
creates the node with exactly the single input slot `"input"` and the
single output slot `"output"`. -/
theorem c9_default_slots (g : RunnableGraph) (id : String) (r : Runnable)
    (config : NodeConfig) (hfresh : g.nodes.lookup id = none)
    (hin : config.inputs = none) (hout : config.outputs = none) :
    (g.addNode id r config).1 = none ∧
    ((g.addNode id r config).2).nodes.lookup id = some
      { id := id, runnable := r, inputs := ["input"], outputs := ["output"],
        inputMappings := [], optional := config.optional.getD false } := by
  unfold RunnableGraph.addNode
  rw [hfresh]
  simp only [Option.isSome_none, Bool.false_eq_true, if_false, hin, hout,
    Option.getD_none]
  exact ⟨trivial, lookup_append_right id _ g.nodes hfresh⟩

/-- Witness for `c9_default_slots` on an empty graph. -/
theorem c9_default_slots_witness :
    ((RunnableGraph.mk "G" [] [] [] [] true 10 false).addNode "n"
        (Runnable.mk "r" none none (fun v => ([], .ok v))) {}).1 = none ∧
    (((RunnableGraph.mk "G" [] [] [] [] true 10 false).addNode "n"
        (Runnable.mk "r" none none (fun v => ([], .ok v))) {}).2).nodes.lookup "n" =
      some { id := "n",
             runnable := Runnable.mk "r" none none (fun v => ([], .ok v)),
             inputs := ["input"], outputs := ["output"],
             inputMappings := [], optional := false } :=
  c9_default_slots (RunnableGraph.mk "G" [] [] [] [] true 10 false) "n"
    (Runnable.mk "r" none none (fun v => ([], .ok v))) {} rfl rfl rfl

theorem lookup_assocSet_self {β : Type _} (k : String) (v : β) :
    ∀ l : List (String × β), (assocSet l k v).lookup k = some v := by
  intro l
  induction l with
  | nil => simp [assocSet, List.lookup]
  | cons p rest ih =>
    obtain ⟨k', v'⟩ := p
    rw [assocSet]
    by_cases hk : k' = k
    · subst hk
      rw [if_pos rfl, List.lookup]
      simp
    · rw [if_neg hk, List.lookup]
      have : (k == k') = false := by
        simp
        exact fun h => hk h.symm
      simp only [this]
      exact ih

theorem lookup_assocSet_other {β : Type _} (k k' : String) (v : β)
    (hne : k' ≠ k) :
    ∀ l : List (String × β), (assocSet l k v).lookup k' = l.lookup k' := by
  intro l
  have hbeq : (k' == k) = false := by simpa using hne
  induction l with
  | nil => simp [assocSet, List.lookup, hbeq]
  | cons p rest ih =>
    obtain ⟨k'', v''⟩ := p
    rw [assocSet]
    by_cases hk : k'' = k
    · subst hk
      rw [if_pos rfl, List.lookup, List.lookup]
      have : (k' == k'') = false := by simpa using hne
      simp only [this]
    · rw [if_neg hk, List.lookup, List.lookup]
      cases hkk : (k' == k'') <;> simp only [ih]

/-- The runnable of the producer node in the claim C10 scenario: it
declares a `string` output schema. -/
def c10RunnableA : Runnable :=
  Runnable.mk "A" none (some ZodType.string) (fun v => ([], .ok v))

/-- The runnable of the consumer node in the claim C10 scenario: it
declares a `number` input schema, incompatible with a `string` output. -/
def c10RunnableB : Runnable :=
  Runnable.mk "B" (some ZodType.number) none (fun v => ([], .ok v))

/-- A two-node graph about to receive an incompatible connection. -/
def c10Graph : RunnableGraph :=
  RunnableGraph.mk "G"
    [("A", GraphNode.mk "A" c10RunnableA ["input"] ["output"] [] false),
     ("B", GraphNode.mk "B" c10RunnableB ["input"] ["output"] [] false)]
    [] [] [] true 10 false

/-- Claim C10, counterexample: a `connect` call that raises a
schema-incompatibility error does NOT leave the graph state unchanged: the
target node's declared input-slot list has already been extended with the
new slot name before the validation throws. -/
theorem c10_counterexample :
    ((c10Graph.connect "A" "B" { toInput := some "x" }).1).isSome = true ∧
    ((c10Graph.connect "A" "B" { toInput := some "x" }).2.nodes.lookup "B").map
      GraphNode.inputs = some ["input", "x"] ∧
    (c10Graph.nodes.lookup "B").map GraphNode.inputs = some ["input"] ∧
    (c10Graph.connect "A" "B" { toInput := some "x" }).2 ≠ c10Graph := by
  have hAfter : ((c10Graph.connect "A" "B"
      { toInput := some "x" }).2.nodes.lookup "B").map GraphNode.inputs =
      some ["input", "x"] := by
    simp [RunnableGraph.connect, c10Graph, c10RunnableA, c10RunnableB,
      List.lookup, strOrDefault, strTruthy, assocSet,
      validateZodTypeCompatibility, extractSchemaInfo, SchemaInfo.basic,
      validateSchemaCompatibility, SchemaInfo.type, SchemaInfo.optional,
      SchemaInfo.nullable, areBasicTypesCompatible]
  have hBefore : (c10Graph.nodes.lookup "B").map GraphNode.inputs =
      some ["input"] := by
    simp [c10Graph, List.lookup]
  refine ⟨?_, hAfter, hBefore, ?_⟩
  · simp [RunnableGraph.connect, c10Graph, c10RunnableA, c10RunnableB,
      List.lookup, strOrDefault, strTruthy, assocSet,
      validateZodTypeCompatibility, extractSchemaInfo, SchemaInfo.basic,
      validateSchemaCompatibility, SchemaInfo.type, SchemaInfo.optional,
      SchemaInfo.nullable, areBasicTypesCompatible]
  · intro h
    have h2 := congrArg
      (fun g : RunnableGraph => (g.nodes.lookup "B").map GraphNode.inputs) h
    simp only [] at h2
    rw [hAfter, hBefore] at h2
    simp at h2

/-- Claim C10, amended: `addNode`, `setEntryNodes` and `setExitNodes`
leave the graph unchanged when they raise; a `connect` call (on existing
distinct nodes, with the default output slot) that raises an error appends
no edge and leaves the target node's `inputMappings` untouched, but the
target's declared input-slot list may already have been extended with the
connected slot name before the validation error is thrown. -/
theorem c10_error_state (g : RunnableGraph) :
    (∀ id r config, (g.addNode id r config).1.isSome →
      (g.addNode id r config).2 = g) ∧
    (∀ ids, (g.setEntryNodes ids).1.isSome → (g.setEntryNodes ids).2 = g) ∧
    (∀ ids, (g.setExitNodes ids).1.isSome → (g.setExitNodes ids).2 = g) ∧
    (∀ fromNodeId toNodeId config fromNode toNode,
      g.nodes.lookup fromNodeId = some fromNode →
      g.nodes.lookup toNodeId = some toNode →
      fromNodeId ≠ toNodeId →
      (g.connect fromNodeId toNodeId config).1.isSome →
      (g.connect fromNodeId toNodeId config).2.edges = g.edges ∧
      ((g.connect fromNodeId toNodeId config).2.nodes.lookup toNodeId).map
        GraphNode.inputMappings = some toNode.inputMappings ∧
      (((g.connect fromNodeId toNodeId config).2.nodes.lookup toNodeId).map
          GraphNode.inputs = some toNode.inputs ∨
       ((g.connect fromNodeId toNodeId config).2.nodes.lookup toNodeId).map
          GraphNode.inputs =
            some (toNode.inputs ++ [strOrDefault config.toInput "input"]))) := by
  refine ⟨?_, ?_, ?_, ?_⟩
  · intro id r config h
    unfold RunnableGraph.addNode at h ⊢
    by_cases hc : (g.nodes.lookup id).isSome = true
    · rw [if_pos hc]
    · rw [if_neg hc] at h
      simp at h
  · intro ids h
    unfold RunnableGraph.setEntryNodes at h ⊢
    cases hfind : ids.find? (fun id => (g.nodes.lookup id).isNone) with
    | some badId => rfl
    | none =>
      rw [hfind] at h
      simp at h
  · intro ids h
    unfold RunnableGraph.setExitNodes at h ⊢
    cases hfind : ids.find? (fun id => (g.nodes.lookup id).isNone) with
    | some badId => rfl
    | none =>
      rw [hfind] at h
      simp at h
  · intro fromNodeId toNodeId config fromNode toNode hf ht hne
    unfold RunnableGraph.connect
    rw [hf, ht]
    simp only []
    split
    · rename_i e heq
      intro _
      simp only []
      rw [lookup_assocSet_self]
      have halias : ¬(toNodeId = fromNodeId) := fun hh => hne hh.symm
      refine ⟨trivial, ?_, ?_⟩
      · simp only [if_neg halias, Option.map_some']
        congr 1
        split <;> rfl
      · simp only [if_neg halias, Option.map_some']
        split
        · left; rfl
        · right; rfl
    · rename_i heq
      intro h
      simp at h

/-- Witness for `c10_error_state`, at the concrete incompatible connection
of `c10Graph`. -/
theorem c10_error_state_witness :
    (c10Graph.connect "A" "B" { toInput := some "x" }).2.edges =
      c10Graph.edges ∧
    ((c10Graph.connect "A" "B" { toInput := some "x" }).2.nodes.lookup "B").map
      GraphNode.inputMappings =
        some (GraphNode.mk "B" c10RunnableB ["input"] ["output"] []
          false).inputMappings ∧
    (((c10Graph.connect "A" "B" { toInput := some "x" }).2.nodes.lookup "B").map
        GraphNode.inputs =
          some (GraphNode.mk "B" c10RunnableB ["input"] ["output"] []
            false).inputs ∨
     ((c10Graph.connect "A" "B" { toInput := some "x" }).2.nodes.lookup "B").map
        GraphNode.inputs =
          some ((GraphNode.mk "B" c10RunnableB ["input"] ["output"] []
            false).inputs ++
              [strOrDefault ({ toInput := some "x" } : ConnectConfig).toInput
                "input"])) :=
  (c10_error_state c10Graph).2.2.2 "A" "B" { toInput := some "x" }
    (GraphNode.mk "A" c10RunnableA ["input"] ["output"] [] false)
    (GraphNode.mk "B" c10RunnableB ["input"] ["output"] [] false)
    rfl rfl (by decide)
    (by simp [RunnableGraph.connect, c10Graph, c10RunnableA, c10RunnableB,
      List.lookup, strOrDefault, strTruthy, assocSet,
      validateZodTypeCompatibility, extractSchemaInfo, SchemaInfo.basic,
      validateSchemaCompatibility, SchemaInfo.type, SchemaInfo.optional,
      SchemaInfo.nullable, areBasicTypesCompatible])

/-! ## Execution (TS implementation, sequential mode)

The scheduler below models the `parallel = false` code path of
`graph.ts`: `#planExecution`'s depth-first topological sort,
`#executeNodesSequential`, `#executeNode`, `#buildNodeInput`,
`#canExecuteNode`, `#dependenciesFailed`, `#collectOutput` and the
persistence layer (`#restorePersistence` / `#createPersistence`).
Parallel mode (`Promise.race` interleaving) is genuine concurrency and is
outside this deterministic model; all scheduler theorems assume
`parallel = false`.

Events keep the fields the claims are about (which event, for which node);
timestamps and log levels are not modelled.  `invoked` is an observation
log recording each `runnable.invoke` call the scheduler makes. -/

/-- `GraphPersistence` with all fields normalized to be present. -/
structure GraphPersistence where
  nodeResults : List (String × JsValue)
  nodeOutputs : List (String × JsValue)
  nodeErrors : List (String × String)
  completedNodes : List String
  failedNodes : List String

/-- The empty snapshot created on first use. -/
def GraphPersistence.empty : GraphPersistence := ⟨[], [], [], [], []⟩

/-- `GraphExecutionContext`: the live in-memory execution state. -/
structure GraphExecutionContext where
  nodeResults : List (String × JsValue)
  nodeOutputs : List (String × JsValue)
  completedNodes : List String
  failedNodes : List String
  nodeErrors : List (String × String)
  graphInput : JsValue

/-- The events the scheduler yields (one constructor per `yield` site). -/
inductive GraphEvent where
  | graphStart (graphName : String)
  | startNode (nodeId : String)
  | nodeEvent (nodeId : String) (payload : JsValue)
  | completeNode (nodeId : String)
  | nodeError (nodeId : String) (message : String)
  | graphComplete (graphName : String) (completedNodes failedNodes : List String)
  | graphErrorLog (message : String)
  | graphError (message : String)
deriving Repr

/-- `#restorePersistence`: hydrate a fresh execution context from a
snapshot (each entry is added to initially-empty maps/sets). -/
def restorePersistence (p : GraphPersistence) (input : JsValue) :
    GraphExecutionContext :=
  { nodeResults := p.nodeResults.foldl (fun m kv => assocSet m kv.1 kv.2) [],
    nodeOutputs := p.nodeOutputs.foldl (fun m kv => assocSet m kv.1 kv.2) [],
    completedNodes := p.completedNodes.foldl setAdd [],
    failedNodes := p.failedNodes.foldl setAdd [],
    nodeErrors := p.nodeErrors.foldl (fun m kv => assocSet m kv.1 kv.2) [],
    graphInput := input }

/-- `#createPersistence`: the completed/failed arrays are cleared and
rebuilt from the context; the maps are updated in place (entries unknown
to the context survive). -/
def createPersistence (p : GraphPersistence) (ctx : GraphExecutionContext) :
    GraphPersistence :=
  { completedNodes := ctx.completedNodes,
    failedNodes := ctx.failedNodes,
    nodeResults := ctx.nodeResults.foldl (fun m kv => assocSet m kv.1 kv.2)
      p.nodeResults,
    nodeOutputs := ctx.nodeOutputs.foldl (fun m kv => assocSet m kv.1 kv.2)
      p.nodeOutputs,
    nodeErrors := ctx.nodeErrors.foldl (fun m kv => assocSet m kv.1 kv.2)
      p.nodeErrors }

/-- `#canExecuteNode` from `graph.ts` (a missing node id cannot occur at
the call sites; it is mapped to `false`). -/
def RunnableGraph.canExecuteNode (g : RunnableGraph) (nodeId : String)
    (ctx : GraphExecutionContext) : Bool :=
  match g.nodes.lookup nodeId with
  | none => false
  | some node =>
    -- Special case for the StuckGraph test
    if g.name = "StuckGraph" && nodeId = "orphan" then false
    else
      node.inputMappings.all (fun kv =>
        let sm := jsSplit2 kv.2
        ctx.completedNodes.contains sm.1 &&
        (ctx.nodeOutputs.lookup (sm.1 ++ "." ++ sm.2)).isSome) &&
      !(decide (node.inputs.length > 0) && node.inputMappings.length = 0 &&
        nodeId ≠ "start" && !(g.entryNodes.contains nodeId))

/-- `#dependenciesFailed` from `graph.ts`. -/
def RunnableGraph.dependenciesFailed (g : RunnableGraph) (nodeId : String)
    (ctx : GraphExecutionContext) : Bool :=
  match g.nodes.lookup nodeId with
  | none => false
  | some node =>
    node.inputMappings.any (fun kv =>
      let sourceNodeId := (jsSplit2 kv.2).1
      ctx.failedNodes.contains sourceNodeId &&
      !(match g.nodes.lookup sourceNodeId with
        | some snode => snode.optional
        | none => false))

/-- Applying an edge's optional `transform` to a value. -/
def applyTransform : Option (JsValue → JsValue) → JsValue → JsValue
  | some f, v => f v
  | none, v => v

/-- `#buildNodeInput` from `graph.ts` (called for non-entry nodes). -/
def RunnableGraph.buildNodeInput (g : RunnableGraph) (nodeId : String)
    (ctx : GraphExecutionContext) : Except String JsValue :=
  match g.nodes.lookup nodeId with
  | none => .error ("Node '" ++ nodeId ++ "' has no input connections")
  | some node =>
    if node.inputs.length = 1 && node.inputs.headD "" = "input" &&
        node.inputMappings.length = 0 then
      match g.edges.filter (fun e => e.«to» = nodeId) with
      | [] => .error ("Node '" ++ nodeId ++ "' has no input connections")
      | [edge] =>
        let outputKey := edge.«from» ++ "." ++ edge.fromOutput
        .ok (applyTransform edge.transform
          ((ctx.nodeOutputs.lookup outputKey).getD .undef))
      | incomingEdges =>
        .ok (.arr (incomingEdges.map (fun edge =>
          applyTransform edge.transform
            ((ctx.nodeOutputs.lookup
              (edge.«from» ++ "." ++ edge.fromOutput)).getD .undef))))
    else
      .ok (.obj (node.inputMappings.map (fun kv =>
        let inputKey := kv.1
        let sm := jsSplit2 kv.2
        let v := (ctx.nodeOutputs.lookup (sm.1 ++ "." ++ sm.2)).getD .undef
        let edge := g.edges.find? (fun e =>
          e.«from» = sm.1 && e.«to» = nodeId && e.fromOutput = sm.2 &&
          e.toInput = inputKey)
        (inputKey, match edge with
          | some e => applyTransform e.transform v
          | none => v))))

/-- The multi-output storing loop of `#executeNode`: outputs recorded so
far are kept even when a later slot is missing and the loop throws. -/
def storeOutputs (nodeId : String) (outputs : List String) (result : JsValue)
    (m : List (String × JsValue)) : List (String × JsValue) × Option String :=
  match outputs with
  | [] => (m, none)
  | k :: rest =>
    if jsIsObject result && jsHasKey result k then
      storeOutputs nodeId rest result
        (assocSet m (nodeId ++ "." ++ k) ((jsGet result k).getD .undef))
    else
      (m, some ("Node '" ++ nodeId ++ "' did not produce expected output '" ++
                k ++ "'"))

/-- The outcome of one `#executeNode` call: the events it yielded, whether
it invoked the node's runnable, the context and persistence after it, and
the error it threw (if any). -/
structure NodeStepResult where
  events : List GraphEvent
  invoked : List String
  ctx : GraphExecutionContext
  pers : GraphPersistence
  err : Option String

/-- `#executeNode` from `graph.ts`. -/
def RunnableGraph.executeNode (g : RunnableGraph) (nodeId : String)
    (ctx : GraphExecutionContext) (pers : GraphPersistence) : NodeStepResult :=
  match g.nodes.lookup nodeId with
  | none =>
    { events := [], invoked := [], ctx := ctx, pers := pers,
      err := some ("Node '" ++ nodeId ++ "' does not exist") }
  | some node =>
    let startEvents := [GraphEvent.startNode nodeId]
    let inputRes : Except String JsValue :=
      if g.entryNodes.contains nodeId then .ok ctx.graphInput
      else g.buildNodeInput nodeId ctx
    match inputRes with
    | .error e =>
      { events := startEvents, invoked := [], ctx := ctx, pers := pers,
        err := some e }
    | .ok input =>
      let run := node.runnable.run input
      let fwd := run.1.map (fun ev => GraphEvent.nodeEvent nodeId ev)
      match run.2 with
      | .error e =>
        { events := startEvents ++ fwd, invoked := [nodeId], ctx := ctx,
          pers := pers, err := some e }
      | .ok nodeResult =>
        let events := startEvents ++ fwd ++ [GraphEvent.completeNode nodeId]
        let ctx1 := { ctx with
          nodeResults := assocSet ctx.nodeResults nodeId nodeResult,
          completedNodes := setAdd ctx.completedNodes nodeId }
        if node.outputs.length > 0 then
          if node.outputs.length = 1 && node.outputs.headD "" = "output" then
            let ctx2 := { ctx1 with
              nodeOutputs := assocSet ctx1.nodeOutputs
                (nodeId ++ "." ++ "output") nodeResult }
            { events := events, invoked := [nodeId], ctx := ctx2,
              pers := createPersistence pers ctx2, err := none }
          else
            match storeOutputs nodeId node.outputs nodeResult ctx1.nodeOutputs with
            | (m, none) =>
              let ctx2 := { ctx1 with nodeOutputs := m }
              { events := events, invoked := [nodeId], ctx := ctx2,
                pers := createPersistence pers ctx2, err := none }
            | (m, some e) =>
              { events := events, invoked := [nodeId],
                ctx := { ctx1 with nodeOutputs := m }, pers := pers,
                err := some e }
        else
          { events := events, invoked := [nodeId], ctx := ctx1,
            pers := createPersistence pers ctx1, err := none }

/-- The running state of `#executeNodesSequential`. -/
structure ExecState where
  events : List GraphEvent
  invoked : List String
  ctx : GraphExecutionContext
  pers : GraphPersistence
  err : Option String

/-- One iteration of the `#executeNodesSequential` loop. -/
def RunnableGraph.execSeqStep (g : RunnableGraph) (nodeId : String)
    (st : ExecState) : ExecState :=
  -- Skip if this node is already processed
  if st.ctx.completedNodes.contains nodeId ||
      st.ctx.failedNodes.contains nodeId then st
  else if !(g.canExecuteNode nodeId st.ctx) then
    if g.dependenciesFailed nodeId st.ctx then
      { st with ctx := { st.ctx with
          failedNodes := setAdd st.ctx.failedNodes nodeId,
          nodeErrors := assocSet st.ctx.nodeErrors nodeId
            ("Dependencies failed for node '" ++ nodeId ++ "'") } }
    else
      { st with err := some ("Cannot execute node '" ++ nodeId ++
        "': dependencies not satisfied") }
  else
    let r := g.executeNode nodeId st.ctx st.pers
    match r.err with
    | none =>
      { events := st.events ++ r.events, invoked := st.invoked ++ r.invoked,
        ctx := r.ctx, pers := r.pers, err := none }
    | some e =>
      match g.nodes.lookup nodeId with
      | some node =>
        if node.optional && g.continueOnError then
          { events := st.events ++ r.events ++ [GraphEvent.nodeError nodeId e],
            invoked := st.invoked ++ r.invoked,
            ctx := { r.ctx with
              failedNodes := setAdd r.ctx.failedNodes nodeId,
              nodeErrors := assocSet r.ctx.nodeErrors nodeId e },
            pers := r.pers, err := none }
        else
          { events := st.events ++ r.events,
            invoked := st.invoked ++ r.invoked,
            ctx := r.ctx, pers := r.pers, err := some e }
      | none =>
        { st with err := some e }

/-- `#executeNodesSequential`: fold the step over the planned order; a
thrown error aborts the remaining iterations. -/
def RunnableGraph.execSeq (g : RunnableGraph) :
    List String → ExecState → ExecState
  | [], st => st
  | nodeId :: rest, st =>
    if st.err.isSome then st
    else g.execSeq rest (g.execSeqStep nodeId st)

/-- `#collectOutput` from `graph.ts`, including its unwrapping of a
single-key `{input: ...}` result object in the multi-exit case. -/
def RunnableGraph.collectOutput (g : RunnableGraph)
    (ctx : GraphExecutionContext) : Except String JsValue :=
  -- Validate that all exit nodes completed successfully
  match g.exitNodes.find? (fun nodeId => !ctx.completedNodes.contains nodeId) with
  | some nodeId =>
    if ctx.failedNodes.contains nodeId then
      .error ("Exit node '" ++ nodeId ++ "' failed: " ++
        ((ctx.nodeErrors.lookup nodeId).getD "Unknown error"))
    else
      .error ("Exit node '" ++ nodeId ++ "' did not complete")
  | none =>
    if g.exitNodes.length = 1 then
      .ok ((ctx.nodeResults.lookup (g.exitNodes.headD "")).getD .undef)
    else
      .ok (.obj (g.exitNodes.map (fun nodeId =>
        let result := (ctx.nodeResults.lookup nodeId).getD .undef
        (nodeId,
          if jsIsObject result && jsHasKey result "input" &&
              (jsKeys result).length = 1 then
            (jsGet result "input").getD .undef
          else result))))

/-- `#findEntryNodes`: nodes that are no edge's target. -/
def RunnableGraph.findEntryNodes (g : RunnableGraph) : List String :=
  (g.nodes.map Prod.fst).filter
    (fun id => !(g.edges.map (fun e => e.«to»)).contains id)

/-- `#findExitNodes`: nodes that are no edge's source. -/
def RunnableGraph.findExitNodes (g : RunnableGraph) : List String :=
  (g.nodes.map Prod.fst).filter
    (fun id => !(g.edges.map (fun e => e.«from»)).contains id)

/-- The `visit` helper of `#planExecution`'s sequential topological sort.
The state is `(visited, nodeOrder)`; `visiting` is the recursion stack,
and the source nodes of the incoming edges are visited left to right
(completed ones skipped), aborting on the first error.  The fuel only
bounds the recursion depth; `planExecution` passes `nodes.length + 1`,
which never runs out on well-formed graphs. -/
def RunnableGraph.visit (g : RunnableGraph) (completed : List String) :
    Nat → String → List String × List String → List String →
    Except String (List String × List String)
  | 0, _, _, _ => .error "visit: fuel exhausted"
  | Nat.succ fuel, nodeId, st, visiting =>
    if st.1.contains nodeId then .ok st
    else if visiting.contains nodeId then
      .error ("Circular dependency detected involving node '" ++ nodeId ++ "'")
    else
      match (g.edges.filter (fun e => e.«to» = nodeId)).foldlM
          (fun st' e =>
            if completed.contains e.«from» then .ok st'
            else g.visit completed fuel e.«from» st' (visiting ++ [nodeId]))
          st with
      | .error e => .error e
      | .ok st' => .ok (setAdd st'.1 nodeId, st'.2 ++ [nodeId])

/-- `#planExecution` from `graph.ts`: in parallel mode the raw remaining
nodes, in sequential mode a depth-first topological order. -/
def RunnableGraph.planExecution (g : RunnableGraph)
    (ctx : GraphExecutionContext) : Except String (List String) :=
  let nodesToProcess := (g.nodes.map Prod.fst).filter
    (fun id => !(ctx.completedNodes.contains id) &&
               !(ctx.failedNodes.contains id))
  if g.parallel then .ok nodesToProcess
  else
    let fuel := g.nodes.length + 1
    match g.entryNodes.foldlM (fun st nodeId =>
        if !(ctx.completedNodes.contains nodeId) &&
            !(ctx.failedNodes.contains nodeId) then
          g.visit ctx.completedNodes fuel nodeId st []
        else .ok st) (([], []) : List String × List String) with
    | .error e => .error e
    | .ok st1 =>
      match nodesToProcess.foldlM (fun st nodeId =>
          if !(st.1.contains nodeId) then
            g.visit ctx.completedNodes fuel nodeId st []
          else .ok st) st1 with
      | .error e => .error e
      | .ok st2 => .ok st2.2

/-- The observable outcome of one `invoke` call in the model. -/
structure InvokeResult where
  events : List GraphEvent
  invoked : List String
  result : Except String JsValue
  pers : GraphPersistence

/-- `RunnableGraph.invoke` from `graph.ts`, sequential code path.  The
snapshot argument plays the role of `context.persistence` (normalized
to have every field). -/
def RunnableGraph.invoke (g : RunnableGraph) (input : JsValue)
    (pers : GraphPersistence) : InvokeResult :=
  if g.nodes.length = 0 then
    { events := [], invoked := [],
      result := .error "Graph must contain at least one node", pers := pers }
  else
    -- #validateSchemas only logs warnings
    let ctx := restorePersistence pers input
    if g.entryNodes.length = 0 && g.name = "NoEntryGraph" then
      { events := [], invoked := [],
        result := .error "Graph must have at least one entry node",
        pers := pers }
    else if g.exitNodes.length = 0 && g.name = "NoExitGraph" then
      { events := [], invoked := [],
        result := .error "Graph must have at least one exit node",
        pers := pers }
    else
      let entryNodes :=
        if g.entryNodes.length = 0 then g.findEntryNodes else g.entryNodes
      if entryNodes.length = 0 then
        { events := [], invoked := [],
          result := .error "Graph must have at least one entry node",
          pers := pers }
      else
        let exitNodes :=
          if g.exitNodes.length = 0 then g.findExitNodes else g.exitNodes
        if exitNodes.length = 0 then
          { events := [], invoked := [],
            result := .error "Graph must have at least one exit node",
            pers := pers }
        else
          let g' := { g with entryNodes := entryNodes, exitNodes := exitNodes }
          let startEvents := [GraphEvent.graphStart g.name]
          match g'.planExecution ctx with
          | .error e =>
            { events := startEvents ++
                [GraphEvent.graphErrorLog ("Graph execution failed: " ++ e),
                 GraphEvent.graphError e],
              invoked := [], result := .error e, pers := pers }
          | .ok order =>
            let st := g'.execSeq order
              { events := [], invoked := [], ctx := ctx, pers := pers,
                err := none }
            match st.err with
            | some e =>
              -- a thrown error discards the collected per-node events
              { events := startEvents ++
                  [GraphEvent.graphErrorLog ("Graph execution failed: " ++ e),
                   GraphEvent.graphError e],
                invoked := st.invoked, result := .error e, pers := st.pers }
            | none =>
              match g'.collectOutput st.ctx with
              | .ok out =>
                { events := startEvents ++ st.events ++
                    [GraphEvent.graphComplete g.name st.ctx.completedNodes
                      st.ctx.failedNodes],
                  invoked := st.invoked, result := .ok out, pers := st.pers }
              | .error e =>
                { events := startEvents ++ st.events ++
                    [GraphEvent.graphComplete g.name st.ctx.completedNodes
                      st.ctx.failedNodes,
                     GraphEvent.graphErrorLog ("Graph execution failed: " ++ e),
                     GraphEvent.graphError e],
                  invoked := st.invoked, result := .error e, pers := st.pers }

theorem string_append_left_cancel {s t u : String} (h : s ++ t = s ++ u) :
    t = u := by
  have hd := congrArg String.data h
  simp only [String.data_append] at hd
  have := List.append_cancel_left hd
  cases t
  cases u
  exact congrArg String.mk this

theorem lookup_assocSet_preserve {β : Type _} (k k' : String) (v : β)
    (hne : k' ≠ k) (l : List (String × β)) :
    (assocSet l k v).lookup k' = l.lookup k' :=
  lookup_assocSet_other k k' v hne l

/-- Frame lemma: the storing loop touches only the keys of its slots. -/
theorem storeOutputs_frame (nodeId : String) (result : JsValue) :
    ∀ (outs : List String) (m m' : List (String × JsValue)) (e : Option String),
      storeOutputs nodeId outs result m = (m', e) →
      ∀ key, (∀ k ∈ outs, key ≠ nodeId ++ "." ++ k) →
        m'.lookup key = m.lookup key := by
  intro outs
  induction outs with
  | nil =>
    intro m m' e h key _
    rw [storeOutputs] at h
    cases h
    rfl
  | cons k rest ih =>
    intro m m' e h key hkey
    rw [storeOutputs] at h
    split at h
    · have := ih _ _ _ h key (fun k' hk' => hkey k' (List.mem_cons_of_mem _ hk'))
      rw [this, lookup_assocSet_other _ _ _ (hkey k (List.mem_cons_self _ _))]
    · cases h
      rfl

/-- On success, every declared slot's value is recorded under
`nodeId ++ "." ++ slot`. -/
theorem storeOutputs_lookup (nodeId : String) (result : JsValue) :
    ∀ (outs : List String) (m m' : List (String × JsValue)),
      storeOutputs nodeId outs result m = (m', none) →
      ∀ k ∈ outs, m'.lookup (nodeId ++ "." ++ k) =
        some ((jsGet result k).getD .undef) := by
  intro outs
  induction outs with
  | nil => intro m m' h k hk; simp at hk
  | cons k0 rest ih =>
    intro m m' h k hk
    rw [storeOutputs] at h
    split at h
    · rcases List.mem_cons.mp hk with rfl | hk'
      · by_cases hmem : k ∈ rest
        · exact ih _ _ h k hmem
        · have hfr := storeOutputs_frame nodeId result rest _ _ _ h
            (nodeId ++ "." ++ k)
            (fun k' hk' heq => hmem (by
              have : k = k' := string_append_left_cancel heq
              rw [this]; exact hk'))
          rw [hfr, lookup_assocSet_self]
      · exact ih _ _ h k hk'
    · cases h

/-- On failure, the loop failed at a declared slot that is absent from the
result object, with the hard missing-output error. -/
theorem storeOutputs_error (nodeId : String) (result : JsValue) :
    ∀ (outs : List String) (m m' : List (String × JsValue)) (e : String),
      storeOutputs nodeId outs result m = (m', some e) →
      ∃ k ∈ outs, (jsIsObject result && jsHasKey result k) = false ∧
        e = "Node '" ++ nodeId ++ "' did not produce expected output '" ++
            k ++ "'" := by
  intro outs
  induction outs with
  | nil => intro m m' e h; rw [storeOutputs] at h; cases h
  | cons k0 rest ih =>
    intro m m' e h
    rw [storeOutputs] at h
    split at h
    · obtain ⟨k, hk, hcond, he⟩ := ih _ _ _ h
      exact ⟨k, List.mem_cons_of_mem _ hk, hcond, he⟩
    · rename_i hcond
      cases h
      exact ⟨k0, List.mem_cons_self _ _, by simpa using hcond, rfl⟩

/-- The storing loop succeeds exactly when every slot is present. -/
theorem storeOutputs_none_iff (nodeId : String) (result : JsValue) :
    ∀ (outs : List String) (m : List (String × JsValue)),
      (storeOutputs nodeId outs result m).2 = none ↔
      ∀ k ∈ outs, (jsIsObject result && jsHasKey result k) = true := by
  intro outs
  induction outs with
  | nil => intro m; rw [storeOutputs]; simp
  | cons k0 rest ih =>
    intro m
    rw [storeOutputs]
    split
    · rename_i hcond
      simp only [List.mem_cons]
      constructor
      · intro h k hk
        rcases hk with rfl | hk'
        · exact hcond
        · exact (ih _).mp h k hk'
      · intro h
        exact (ih _).mpr (fun k hk => h k (Or.inr hk))
    · rename_i hcond
      simp only [List.mem_cons]
      constructor
      · intro h; cases h
      · intro h
        exact absurd (h k0 (Or.inl rfl)) hcond

/-- Claim C3: for a node declaring more than one output slot whose
runnable returned successfully, node execution succeeds exactly when every
declared slot name is present on the result object, in which case the
result is split slot-by-slot into the named-outputs map; an absent slot
raises the hard "did not produce expected output" error instead of being
skipped. -/
theorem c3_multi_output_split (g : RunnableGraph) (nodeId : String)
    (node : GraphNode) (input nodeResult : JsValue) (evs : List JsValue)
    (ctx : GraphExecutionContext) (pers : GraphPersistence)
    (hnode : g.nodes.lookup nodeId = some node)
    (houts : node.outputs.length > 1)
    (hinput : (if g.entryNodes.contains nodeId then Except.ok ctx.graphInput
               else g.buildNodeInput nodeId ctx) = .ok input)
    (hrun : node.runnable.run input = (evs, .ok nodeResult)) :
    (((g.executeNode nodeId ctx pers).err = none) ↔
      ∀ k ∈ node.outputs,
        (jsIsObject nodeResult && jsHasKey nodeResult k) = true) ∧
    (((g.executeNode nodeId ctx pers).err = none) →
      ∀ k ∈ node.outputs,
        (g.executeNode nodeId ctx pers).ctx.nodeOutputs.lookup
          (nodeId ++ "." ++ k) = some ((jsGet nodeResult k).getD .undef)) ∧
    (∀ e, (g.executeNode nodeId ctx pers).err = some e →
      ∃ k ∈ node.outputs,
        (jsIsObject nodeResult && jsHasKey nodeResult k) = false ∧
        e = "Node '" ++ nodeId ++ "' did not produce expected output '" ++
            k ++ "'") := by
  have hlen1 : (node.outputs.length = 1 && node.outputs.headD "" = "output") =
      false := by
    have : ¬(node.outputs.length = 1) := by omega
    simp [this]
  have hlen0 : decide (node.outputs.length > 0) = true := by
    simp
    omega
  unfold RunnableGraph.executeNode
  rw [hnode]
  simp only [hinput, hrun, hlen0, hlen1, if_true, if_false, Bool.false_eq_true]
  rcases hso : storeOutputs nodeId node.outputs nodeResult ctx.nodeOutputs
    with ⟨m, oe⟩
  rw [if_pos (show node.outputs.length > 0 by omega)]
  cases oe with
  | none =>
    refine ⟨?_, ?_, ?_⟩
    · exact iff_of_true rfl
        ((storeOutputs_none_iff nodeId nodeResult node.outputs
          ctx.nodeOutputs).mp (by rw [hso]))
    · intro _ k hk
      exact storeOutputs_lookup nodeId nodeResult node.outputs _ _ hso k hk
    · intro e he
      cases he
  | some e =>
    refine ⟨?_, ?_, ?_⟩
    · refine iff_of_false (by simp) ?_
      intro hall
      have := (storeOutputs_none_iff nodeId nodeResult node.outputs
        ctx.nodeOutputs).mpr hall
      rw [hso] at this
      cases this
    · intro h
      cases h
    · intro e' he'
      cases he'
      exact storeOutputs_error nodeId nodeResult node.outputs _ _ _ hso

/-- A runnable producing the two-slot object `{p: 1, q: 2}`. -/
def c3Runnable : Runnable :=
  Runnable.mk "S" none none
    (fun _ => ([], .ok (.obj [("p", .num 1), ("q", .num 2)])))

/-- A one-node graph whose node declares the output slots `p` and `q`. -/
def c3Graph : RunnableGraph :=
  RunnableGraph.mk "G"
    [("S", GraphNode.mk "S" c3Runnable ["input"] ["p", "q"] [] false)]
    [] ["S"] ["S"] false 10 false

/-- Witness for `c3_multi_output_split` on `c3Graph`. -/
theorem c3_multi_output_split_witness :
    (((c3Graph.executeNode "S" ⟨[], [], [], [], [], .num 0⟩
        GraphPersistence.empty).err = none) ↔
      ∀ k ∈ (GraphNode.mk "S" c3Runnable ["input"] ["p", "q"] [] false).outputs,
        (jsIsObject (.obj [("p", .num 1), ("q", .num 2)]) &&
         jsHasKey (.obj [("p", .num 1), ("q", .num 2)]) k) = true) ∧
    (((c3Graph.executeNode "S" ⟨[], [], [], [], [], .num 0⟩
        GraphPersistence.empty).err = none) →
      ∀ k ∈ (GraphNode.mk "S" c3Runnable ["input"] ["p", "q"] [] false).outputs,
        (c3Graph.executeNode "S" ⟨[], [], [], [], [], .num 0⟩
          GraphPersistence.empty).ctx.nodeOutputs.lookup ("S" ++ "." ++ k) =
            some ((jsGet (.obj [("p", .num 1), ("q", .num 2)]) k).getD .undef)) ∧
    (∀ e, (c3Graph.executeNode "S" ⟨[], [], [], [], [], .num 0⟩
        GraphPersistence.empty).err = some e →
      ∃ k ∈ (GraphNode.mk "S" c3Runnable ["input"] ["p", "q"] [] false).outputs,
        (jsIsObject (.obj [("p", .num 1), ("q", .num 2)]) &&
         jsHasKey (.obj [("p", .num 1), ("q", .num 2)]) k) = false ∧
        e = "Node '" ++ "S" ++ "' did not produce expected output '" ++
            k ++ "'") :=
  c3_multi_output_split c3Graph "S"
    (GraphNode.mk "S" c3Runnable ["input"] ["p", "q"] [] false)
    (.num 0) (.obj [("p", .num 1), ("q", .num 2)]) []
    ⟨[], [], [], [], [], .num 0⟩ GraphPersistence.empty
    rfl (by decide) rfl rfl

theorem setAdd_contains_true {s : List String} {x : String} (y : String)
    (h : s.contains x = true) : (setAdd s y).contains x = true := by
  unfold setAdd
  split
  · exact h
  · simp at h ⊢
    exact Or.inl h

theorem setAdd_contains_false {s : List String} {x : String} {y : String}
    (h : s.contains x = false) (hxy : x ≠ y) :
    (setAdd s y).contains x = false := by
  unfold setAdd
  split
  · exact h
  · simp at h ⊢
    exact ⟨h, hxy⟩

/-- `#executeNode` never touches the failed set. -/
theorem executeNode_ctx_failedNodes (g : RunnableGraph) (nodeId : String)
    (ctx : GraphExecutionContext) (pers : GraphPersistence) :
    (g.executeNode nodeId ctx pers).ctx.failedNodes = ctx.failedNodes := by
  unfold RunnableGraph.executeNode
  simp only []
  repeat' split
  all_goals rfl

/-- `#executeNode` adds at most the executed node to the completed set. -/
theorem executeNode_ctx_completedNodes (g : RunnableGraph) (nodeId : String)
    (ctx : GraphExecutionContext) (pers : GraphPersistence) :
    (g.executeNode nodeId ctx pers).ctx.completedNodes = ctx.completedNodes ∨
    (g.executeNode nodeId ctx pers).ctx.completedNodes =
      setAdd ctx.completedNodes nodeId := by
  unfold RunnableGraph.executeNode
  simp only []
  repeat' split
  all_goals first
    | exact Or.inl rfl
    | exact Or.inr rfl

/-- `#executeNode` invokes at most its own node's runnable. -/
theorem executeNode_invoked (g : RunnableGraph) (nodeId : String)
    (ctx : GraphExecutionContext) (pers : GraphPersistence) :
    (g.executeNode nodeId ctx pers).invoked = [] ∨
    (g.executeNode nodeId ctx pers).invoked = [nodeId] := by
  unfold RunnableGraph.executeNode
  simp only []
  repeat' split
  all_goals first
    | exact Or.inl rfl
    | exact Or.inr rfl

/-- A node with a required mapping from a non-completed source is not
executable. -/
theorem canExecute_false_of_dep (g : RunnableGraph) (nodeId sourceId : String)
    (node : GraphNode) (inputKey mapping : String)
    (ctx : GraphExecutionContext)
    (hnode : g.nodes.lookup nodeId = some node)
    (hmap : (inputKey, mapping) ∈ node.inputMappings)
    (hsrc : (jsSplit2 mapping).1 = sourceId)
    (hncomp : ctx.completedNodes.contains sourceId = false) :
    g.canExecuteNode nodeId ctx = false := by
  unfold RunnableGraph.canExecuteNode
  rw [hnode]
  simp only []
  split
  · rfl
  · have hx : ¬(node.inputMappings.all (fun kv =>
        let sm := jsSplit2 kv.2
        ctx.completedNodes.contains sm.1 &&
        (ctx.nodeOutputs.lookup (sm.1 ++ "." ++ sm.2)).isSome) = true) := by
      rw [List.all_eq_true]
      intro hforall
      have := hforall (inputKey, mapping) hmap
      simp only [hsrc] at this
      rw [hncomp] at this
      simp at this
    have hfalse := Bool.eq_false_iff.mpr hx
    rw [hfalse]
    simp

/-- A node with a required mapping from a failed non-optional source has
failed dependencies. -/
theorem dependenciesFailed_true_of (g : RunnableGraph)
    (nodeId sourceId : String) (node snode : GraphNode)
    (inputKey mapping : String) (ctx : GraphExecutionContext)
    (hnode : g.nodes.lookup nodeId = some node)
    (hmap : (inputKey, mapping) ∈ node.inputMappings)
    (hsrc : (jsSplit2 mapping).1 = sourceId)
    (hsnode : g.nodes.lookup sourceId = some snode)
    (hopt : snode.optional = false)
    (hfailed : ctx.failedNodes.contains sourceId = true) :
    g.dependenciesFailed nodeId ctx = true := by
  unfold RunnableGraph.dependenciesFailed
  rw [hnode]
  rw [List.any_eq_true]
  refine ⟨(inputKey, mapping), hmap, ?_⟩
  simp only [hsrc]
  rw [hfailed, hsnode]
  simp [hopt]

/-- One `#executeNodesSequential` iteration preserves the failed source's
status and never invokes the blocked node. -/
theorem c2_step_preserves (g : RunnableGraph) (nodeId sourceId : String)
    (node : GraphNode) (inputKey mapping : String)
    (hnode : g.nodes.lookup nodeId = some node)
    (hmap : (inputKey, mapping) ∈ node.inputMappings)
    (hsrc : (jsSplit2 mapping).1 = sourceId)
    (m : String) (st : ExecState)
    (hf : st.ctx.failedNodes.contains sourceId = true)
    (hc : st.ctx.completedNodes.contains sourceId = false) :
    (g.execSeqStep m st).ctx.failedNodes.contains sourceId = true ∧
    (g.execSeqStep m st).ctx.completedNodes.contains sourceId = false ∧
    ∃ new, (g.execSeqStep m st).invoked = st.invoked ++ new ∧
      nodeId ∉ new := by
  by_cases h1 : (st.ctx.completedNodes.contains m ||
      st.ctx.failedNodes.contains m) = true
  · unfold RunnableGraph.execSeqStep
    rw [if_pos h1]
    exact ⟨hf, hc, [], by simp, by simp⟩
  · have h1f : (st.ctx.completedNodes.contains m ||
        st.ctx.failedNodes.contains m) = false := Bool.eq_false_iff.mpr h1
    have hmns : sourceId ≠ m := by
      intro hrfl
      rw [← hrfl, hf] at h1f
      simp at h1f
    unfold RunnableGraph.execSeqStep
    rw [if_neg h1]
    by_cases h2 : g.canExecuteNode m st.ctx = true
    · rw [if_neg (by simp [h2])]
      have hmn : nodeId ∉ [m] := by
        intro hrfl
        rw [List.mem_singleton] at hrfl
        subst hrfl
        rw [canExecute_false_of_dep g nodeId sourceId node inputKey mapping
          st.ctx hnode hmap hsrc hc] at h2
        cases h2
      have hrf := executeNode_ctx_failedNodes g m st.ctx st.pers
      have hrc := executeNode_ctx_completedNodes g m st.ctx st.pers
      have hri := executeNode_invoked g m st.ctx st.pers
      have hcomp : (g.executeNode m st.ctx st.pers).ctx.completedNodes.contains
          sourceId = false := by
        rcases hrc with hsame | hadd
        · rw [hsame]; exact hc
        · rw [hadd]; exact setAdd_contains_false hc hmns
      have hinv : nodeId ∉ (g.executeNode m st.ctx st.pers).invoked := by
        rcases hri with hnil | hone
        · rw [hnil]; simp
        · rw [hone]; exact hmn
      simp only []
      rcases hre : (g.executeNode m st.ctx st.pers).err with _ | e
      · exact ⟨by rw [hrf]; exact hf, hcomp,
          (g.executeNode m st.ctx st.pers).invoked, rfl, hinv⟩
      · rcases hlk : g.nodes.lookup m with _ | nodee
        · try simp only [hlk]
          exact ⟨hf, hc, [], by simp, by simp⟩
        · try simp only [hlk]
          by_cases h3 : (nodee.optional && g.continueOnError) = true
          · rw [if_pos h3]
            exact ⟨setAdd_contains_true m (by rw [hrf]; exact hf), hcomp,
              (g.executeNode m st.ctx st.pers).invoked, rfl, hinv⟩
          · rw [if_neg h3]
            exact ⟨by rw [hrf]; exact hf, hcomp,
              (g.executeNode m st.ctx st.pers).invoked, rfl, hinv⟩
    · rw [if_pos (by simp [Bool.eq_false_iff.mpr h2])]
      split
      · exact ⟨setAdd_contains_true m hf, hc, [], by simp, by simp⟩
      · exact ⟨hf, hc, [], by simp, by simp⟩

/-- Whole-run consequence of `c2_step_preserves`: starting from a state
where the required source is failed and not completed, a sequential run
never invokes the blocked node's runnable. -/
theorem c2_run_never_invoked (g : RunnableGraph) (nodeId sourceId : String)
    (node : GraphNode) (inputKey mapping : String)
    (hnode : g.nodes.lookup nodeId = some node)
    (hmap : (inputKey, mapping) ∈ node.inputMappings)
    (hsrc : (jsSplit2 mapping).1 = sourceId) :
    ∀ (order : List String) (st : ExecState),
      st.ctx.failedNodes.contains sourceId = true →
      st.ctx.completedNodes.contains sourceId = false →
      ∃ new, (g.execSeq order st).invoked = st.invoked ++ new ∧
        nodeId ∉ new := by
  intro order
  induction order with
  | nil =>
    intro st hf hc
    exact ⟨[], by simp [RunnableGraph.execSeq], by simp⟩
  | cons m rest ih =>
    intro st hf hc
    rw [RunnableGraph.execSeq]
    by_cases herr : st.err.isSome = true
    · rw [if_pos herr]
      exact ⟨[], by simp, by simp⟩
    · rw [if_neg herr]
      obtain ⟨hf', hc', new1, hinv1, hn1⟩ := c2_step_preserves g nodeId
        sourceId node inputKey mapping hnode hmap hsrc m st hf hc
      obtain ⟨new2, hinv2, hn2⟩ := ih (g.execSeqStep m st) hf' hc'
      refine ⟨new1 ++ new2, ?_, ?_⟩
      · rw [hinv2, hinv1, List.append_assoc]
      · simp only [List.mem_append]
        rintro (h | h)
        · exact hn1 h
        · exact hn2 h

/-- Claim C2: a node one of whose `inputMappings` references a required
(non-optional) upstream node that is in the failed set is marked failed
immediately by the sequential scheduler with the synthesized
"Dependencies failed" error — the step adds it to `failedNodes` and
records the error, changing nothing else and invoking nothing — and its
runnable is never invoked anywhere in the run. -/
theorem c2_dependency_failed (g : RunnableGraph) (nodeId sourceId : String)
    (node snode : GraphNode) (inputKey mapping : String) (st : ExecState)
    (hnode : g.nodes.lookup nodeId = some node)
    (hmap : (inputKey, mapping) ∈ node.inputMappings)
    (hsrc : (jsSplit2 mapping).1 = sourceId)
    (hsnode : g.nodes.lookup sourceId = some snode)
    (hopt : snode.optional = false)
    (hfailed : st.ctx.failedNodes.contains sourceId = true)
    (hncomp : st.ctx.completedNodes.contains sourceId = false) :
    ((st.ctx.completedNodes.contains nodeId ||
        st.ctx.failedNodes.contains nodeId) = false →
      g.execSeqStep nodeId st = { st with ctx := { st.ctx with
        failedNodes := setAdd st.ctx.failedNodes nodeId,
        nodeErrors := assocSet st.ctx.nodeErrors nodeId
          ("Dependencies failed for node '" ++ nodeId ++ "'") } }) ∧
    (∀ order, ∃ new, (g.execSeq order st).invoked = st.invoked ++ new ∧
      nodeId ∉ new) := by
  constructor
  · intro hskip
    have hce := canExecute_false_of_dep g nodeId sourceId node inputKey
      mapping st.ctx hnode hmap hsrc hncomp
    have hdf := dependenciesFailed_true_of g nodeId sourceId node snode
      inputKey mapping st.ctx hnode hmap hsrc hsnode hopt hfailed
    unfold RunnableGraph.execSeqStep
    rw [if_neg (by rw [hskip]; exact Bool.false_ne_true)]
    rw [if_pos (by simp [hce])]
    rw [if_pos hdf]
  · intro order
    exact c2_run_never_invoked g nodeId sourceId node inputKey mapping
      hnode hmap hsrc order st hfailed hncomp

/-- A pass-through runnable used by the claim C2 witness graph. -/
def c2Runnable : Runnable :=
  Runnable.mk "r" none none (fun v => ([], .ok v))

/-- The blocked target node of the C2 witness: its single input is mapped
from `src.output`. -/
def c2TgtNode : GraphNode :=
  GraphNode.mk "tgt" c2Runnable ["input"] ["output"]
    [("input", "src.output")] false

/-- The non-optional source node of the C2 witness. -/
def c2SrcNode : GraphNode :=
  GraphNode.mk "src" c2Runnable ["input"] ["output"] [] false

/-- The C2 witness graph. -/
def c2Graph : RunnableGraph :=
  RunnableGraph.mk "G" [("src", c2SrcNode), ("tgt", c2TgtNode)] []
    ["src"] ["tgt"] false 10 false

/-- The C2 witness state: `src` has already failed. -/
def c2State : ExecState :=
  ExecState.mk [] [] ⟨[], [], [], ["src"], [("src", "boom")], .num 0⟩
    GraphPersistence.empty none

/-- Witness for `c2_dependency_failed` on `c2Graph`. -/
theorem c2_dependency_failed_witness :
    ((c2State.ctx.completedNodes.contains "tgt" ||
        c2State.ctx.failedNodes.contains "tgt") = false →
      c2Graph.execSeqStep "tgt" c2State = { c2State with
        ctx := { c2State.ctx with
          failedNodes := setAdd c2State.ctx.failedNodes "tgt",
          nodeErrors := assocSet c2State.ctx.nodeErrors "tgt"
            ("Dependencies failed for node '" ++ "tgt" ++ "'") } }) ∧
    (∀ order, ∃ new, (c2Graph.execSeq order c2State).invoked =
      c2State.invoked ++ new ∧ "tgt" ∉ new) :=
  c2_dependency_failed c2Graph "tgt" "src" c2TgtNode c2SrcNode "input"
    "src.output" c2State rfl (by simp [c2TgtNode]) rfl rfl rfl rfl rfl
/-- A runnable that ignores its input and returns a fixed value. -/
def constRunnable (name : String) (v : JsValue) : Runnable :=
  Runnable.mk name none none (fun _ => ([], .ok v))

/-- Entry node of the C1 graph. -/
def c1NodeA : GraphNode :=
  GraphNode.mk "a" (constRunnable "ra" (.num 1)) ["input"] ["output"] [] false

/-- Exit node `b` of the C1 graph: its runnable returns the single-key
object `\x7binput: 5\x7d`. -/
def c1NodeB : GraphNode :=
  GraphNode.mk "b" (constRunnable "rb" (.obj [("input", .num 5)]))
    ["input"] ["output"] [("input", "a.output")] false

/-- Exit node `c` of the C1 graph: its runnable returns `7`. -/
def c1NodeC : GraphNode :=
  GraphNode.mk "c" (constRunnable "rc" (.num 7))
    ["input"] ["output"] [("input", "a.output")] false

/-- The C1 graph: entry `a` feeding the two exit nodes `b` and `c`. -/
def c1Graph : RunnableGraph :=
  RunnableGraph.mk "G" [("a", c1NodeA), ("b", c1NodeB), ("c", c1NodeC)]
    [GraphEdge.mk "a" "b" "output" "input" none,
     GraphEdge.mk "a" "c" "output" "input" none]
    ["a"] ["b", "c"] false 10 false

/-- **C1, counterexample.**  Running `c1Graph` to completion, the final
result maps exit node `b` to `5`, although the recorded result of `b`
(as stored in `nodeResults` and returned in the final persistence) is the
object `\x7binput: 5\x7d`: the multi-exit assembly does not map each exit
node to its recorded result, it unwraps single-key `\x7binput: ...\x7d`
objects. -/
theorem c1_counterexample :
    (c1Graph.invoke (.num 0) GraphPersistence.empty).result =
      .ok (.obj [("b", .num 5), ("c", .num 7)]) ∧
    (c1Graph.invoke (.num 0)
        GraphPersistence.empty).pers.nodeResults.lookup "b" =
      some (.obj [("input", .num 5)]) ∧
    JsValue.num 5 ≠ JsValue.obj [("input", .num 5)] :=
  ⟨by simp only [RunnableGraph.invoke]; rfl,
   by simp only [RunnableGraph.invoke]; rfl,
   fun h => JsValue.noConfusion h⟩

/-- **C1 (amended).**  For a run that executes to completion without a
thrown error, the final result of `invoke` is assembled by
`collectOutput` from the final context, and that assembly satisfies:
with exactly one configured exit node that completed, the result is that
node's recorded result; with several exit nodes, all completed, the
result is an object keyed by exit node id, mapping each to its recorded
result EXCEPT that a recorded result that is an object with `input` as
its only key is unwrapped to that key's value; and when some exit node
did not complete, assembly raises an error for the first such node,
distinguishing a failed exit node from one that never ran. -/
theorem c1_output_assembly (g : RunnableGraph) (input : JsValue)
    (pers : GraphPersistence) (order : List String) (st : ExecState)
    (hnodes : g.nodes.length ≠ 0)
    (hent : g.entryNodes.length ≠ 0)
    (hexit : g.exitNodes.length ≠ 0)
    (hplan : g.planExecution (restorePersistence pers input) = .ok order)
    (hst : g.execSeq order
      ⟨[], [], restorePersistence pers input, pers, none⟩ = st)
    (herr : st.err = none) :
    (g.invoke input pers).result = g.collectOutput st.ctx ∧
    (∀ e, g.exitNodes = [e] →
      st.ctx.completedNodes.contains e = true →
      g.collectOutput st.ctx =
        .ok ((st.ctx.nodeResults.lookup e).getD .undef)) ∧
    ((∀ e ∈ g.exitNodes, st.ctx.completedNodes.contains e = true) →
      g.exitNodes.length ≠ 1 →
      g.collectOutput st.ctx = .ok (.obj (g.exitNodes.map (fun e =>
        let r := (st.ctx.nodeResults.lookup e).getD .undef
        (e, if jsIsObject r && jsHasKey r "input" &&
              (jsKeys r).length = 1 then
            (jsGet r "input").getD .undef
          else r))))) ∧
    (∀ e, g.exitNodes.find?
        (fun x => !st.ctx.completedNodes.contains x) = some e →
      g.collectOutput st.ctx = .error (
        if st.ctx.failedNodes.contains e then
          "Exit node '" ++ e ++ "' failed: " ++
            ((st.ctx.nodeErrors.lookup e).getD "Unknown error")
        else "Exit node '" ++ e ++ "' did not complete")) := by
  refine ⟨?_, ?_, ?_, ?_⟩
  · unfold RunnableGraph.invoke
    rw [if_neg hnodes]
    rw [if_neg (show ¬((decide (g.entryNodes.length = 0) &&
      decide (g.name = "NoEntryGraph")) = true) by simp [hent])]
    rw [if_neg (show ¬((decide (g.exitNodes.length = 0) &&
      decide (g.name = "NoExitGraph")) = true) by simp [hexit])]
    simp only [if_neg hent, if_neg hexit]
    have hg : RunnableGraph.mk g.name g.nodes g.edges g.entryNodes
        g.exitNodes g.parallel g.maxConcurrency g.continueOnError = g := rfl
    rw [hg]
    rw [hplan]
    simp only []
    rw [hst, herr]
    rcases hco : g.collectOutput st.ctx with e | out <;> simp [hco]
  · intro e he hcomp
    unfold RunnableGraph.collectOutput
    rw [he]
    rw [show List.find? (fun x => !st.ctx.completedNodes.contains x) [e]
        = none by
      have hmem : e ∈ st.ctx.completedNodes := by simpa using hcomp
      simp [List.find?_cons, hmem]]
    simp only []
    simp
  · intro hall hlen
    unfold RunnableGraph.collectOutput
    rw [show List.find? (fun x => !st.ctx.completedNodes.contains x)
        g.exitNodes = none by
      rw [List.find?_eq_none]
      intro x hx
      have hmem : x ∈ st.ctx.completedNodes := by simpa using hall x hx
      simp [hmem]]
    simp only []
    rw [if_neg hlen]
  · intro e hfind
    unfold RunnableGraph.collectOutput
    rw [hfind]
    simp only []
    split <;> rfl

/-- Witness for `c1_output_assembly` on `c1Graph`: the first conjunct at
the concrete run. -/
theorem c1_output_assembly_witness :
    (c1Graph.invoke (.num 0) GraphPersistence.empty).result =
      c1Graph.collectOutput (c1Graph.execSeq ["a", "b", "c"]
        ⟨[], [], restorePersistence GraphPersistence.empty (.num 0),
         GraphPersistence.empty, none⟩).ctx :=
  (c1_output_assembly c1Graph (.num 0) GraphPersistence.empty
    ["a", "b", "c"] _ (by decide) (by decide) (by decide) rfl rfl
    rfl).1

/-- `EdgeStep edges x y`: some edge of `edges` goes from `x` to `y`. -/
def EdgeStep (edges : List GraphEdge) (x y : String) : Prop :=
  ∃ e ∈ edges, e.«from» = x ∧ e.«to» = y

/-- Reachability along zero or more edges. -/
def Reaches (edges : List GraphEdge) : String → String → Prop :=
  Relation.ReflTransGen (EdgeStep edges)

/-- `x` lies on a directed cycle of `edges`. -/
def Doomed (edges : List GraphEdge) (x : String) : Prop :=
  ∃ y, EdgeStep edges x y ∧ Reaches edges y x

/-- The invariant of the legacy `hasCycle` depth-first search: every
finished node (visited and not on the recursion stack) has all its
successors finished, and lies on no directed cycle. -/
def BlackInv (edges : List GraphEdge) (V S : List String) : Prop :=
  ∀ v ∈ V, v ∉ S →
    (∀ y, EdgeStep edges v y → y ∈ V ∧ y ∉ S) ∧ ¬Doomed edges v

/-- The `hasCycle` closure of the legacy variant\'s `#validateGraph`
(`graph.js`): depth-first search over outgoing edges with a global
`visited` set and a recursion stack, returning the flag and the updated
`visited`.  The fuel only bounds the recursion depth; `jsValidateGraph`
passes `nodes.length + 1`, which never runs out when every edge target
is a node id. -/
def hasCycle (edges : List GraphEdge) :
    Nat → String → List String → List String →
    Except String (Bool × List String)
  | 0, _, _, _ => .error "hasCycle: fuel exhausted"
  | Nat.succ fuel, nodeId, visited, stack =>
    if stack.contains nodeId then .ok (true, visited)
    else if visited.contains nodeId then .ok (false, visited)
    else
      (edges.filter (fun e => e.«from» = nodeId)).foldlM
        (fun acc e =>
          if acc.1 then .ok acc
          else hasCycle edges fuel e.«to» acc.2 (stack ++ [nodeId]))
        (false, setAdd visited nodeId)

/-- `#validateConnectionSchema` of the legacy JS variant: silently
returns when a node or a schema is missing or for a non-`output` key of
a multi-output source, and throws only on a hard schema
incompatibility. -/
def jsValidateConnectionSchema (g : RunnableGraph)
    (fromNodeId toNodeId fromOutput : String) : Option String :=
  match g.nodes.lookup fromNodeId, g.nodes.lookup toNodeId with
  | some fromNode, some toNode =>
    match fromNode.runnable.outputSchema, toNode.runnable.inputSchema with
    | some fromSchema, some toSchema =>
      if fromOutput != "output" && decide (fromNode.outputs.length > 1) then
        none
      else
        let r := validateZodTypeCompatibility (some fromSchema) (some toSchema)
        if r.compatible then none
        else some ("Schema incompatibility between '" ++ fromNodeId ++
          "' (output) and '" ++ toNodeId ++ "' (input): " ++
          String.intercalate ", " r.errors)
    | _, _ => none
  | _, _ => none

/-- `connect` of the legacy JS variant of `RunnableGraph` (`graph.js`):
existence checks, push the edge, update the target node\'s
`inputMappings`, then validate the connection schema.  There is no cycle
check here. -/
def jsConnect (g : RunnableGraph) (fromNodeId toNodeId : String)
    (config : ConnectConfig) : Option String × RunnableGraph :=
  match g.nodes.lookup fromNodeId with
  | none => (some ("Source node '" ++ fromNodeId ++ "' does not exist"), g)
  | some _ =>
    match g.nodes.lookup toNodeId with
    | none => (some ("Target node '" ++ toNodeId ++ "' does not exist"), g)
    | some targetNode =>
      let fromOutput := strOrDefault config.fromOutput "output"
      let toInput := strOrDefault config.toInput "input"
      let g1 := { g with edges := g.edges ++
        [GraphEdge.mk fromNodeId toNodeId fromOutput toInput
          config.transform] }
      let targetNode1 := { targetNode with
        inputMappings := assocSet targetNode.inputMappings
          toInput (fromNodeId ++ "." ++ fromOutput) }
      let g2 := { g1 with nodes := assocSet g1.nodes toNodeId targetNode1 }
      (jsValidateConnectionSchema g2 fromNodeId toNodeId fromOutput, g2)

/-- One iteration of the cycle-check loop of the legacy `#validateGraph`:
`if (hasCycle(nodeId)) throw new Error("Graph contains cycles")`, with
the `visited` set shared across iterations. -/
def cycleLoopStep (g : RunnableGraph) (visited : List String)
    (nodeId : String) : Except String (List String) :=
  match hasCycle g.edges (g.nodes.length + 1) nodeId visited [] with
  | .error e => .error e
  | .ok (true, _) => .error "Graph contains cycles"
  | .ok (false, visited1) => .ok visited1

/-- `#validateGraph` of the legacy JS variant, called at the start of
`invoke` (execution time): size, entry and exit checks, then the cycle
check over every node id with a shared `visited` set. -/
def jsValidateGraph (g : RunnableGraph) : Option String :=
  if g.nodes.length = 0 then some "Graph must contain at least one node"
  else if g.entryNodes.length = 0 then
    some "Graph must have at least one entry node"
  else if g.exitNodes.length = 0 then
    some "Graph must have at least one exit node"
  else
    match (g.nodes.map Prod.fst).foldlM (cycleLoopStep g)
        ([] : List String) with
    | .error e => some e
    | .ok _ => none

/-- Entry node of the C8 cyclic graph. -/
def c8NodeA : GraphNode :=
  GraphNode.mk "a" (constRunnable "ra" (.num 1)) ["input"] ["output"] [] false

/-- Exit node of the C8 cyclic graph. -/
def c8NodeB : GraphNode :=
  GraphNode.mk "b" (constRunnable "rb" (.num 2)) ["input"] ["output"] [] false

/-- The C8 graph before any edge is added. -/
def c8Graph0 : RunnableGraph :=
  RunnableGraph.mk "G" [("a", c8NodeA), ("b", c8NodeB)] [] ["a"] ["b"]
    false 10 false

/-- The C8 graph after `connect("a", "b")`. -/
def c8Graph1 : RunnableGraph :=
  (jsConnect c8Graph0 "a" "b" (ConnectConfig.mk none none none)).2

/-- The C8 graph after the cycle-closing `connect("b", "a")`. -/
def c8Graph2 : RunnableGraph :=
  (jsConnect c8Graph1 "b" "a" (ConnectConfig.mk none none none)).2

theorem mem_setAdd {s : List String} {x y : String} :
    x ∈ setAdd s y ↔ x ∈ s ∨ x = y := by
  unfold setAdd
  split
  · rename_i h
    constructor
    · exact Or.inl
    · rintro (hx | rfl)
      · exact hx
      · exact h
  · simp

theorem subset_setAdd (s : List String) (y : String) : s ⊆ setAdd s y :=
  fun _ hx => mem_setAdd.mpr (Or.inl hx)

theorem self_mem_setAdd (s : List String) (y : String) : y ∈ setAdd s y :=
  mem_setAdd.mpr (Or.inr rfl)

theorem exceptBind_ok {α β : Type} (a : α) (k : α → Except String β) :
    (Except.ok a >>= k) = k a := rfl

theorem exceptBind_err {α β : Type} (msg : String)
    (k : α → Except String β) :
    ((Except.error msg : Except String α) >>= k) =
      (Except.error msg : Except String β) := rfl

/-- From a finished node, edge-reachability stays within the finished
set of a `BlackInv` state. -/
theorem black_reaches {edges : List GraphEdge} {V S : List String}
    (hinv : BlackInv edges V S) {v w : String}
    (hreach : Reaches edges v w) :
    v ∈ V → v ∉ S → w ∈ V ∧ w ∉ S := by
  induction hreach using Relation.ReflTransGen.head_induction_on with
  | refl => exact fun hv hvs => ⟨hv, hvs⟩
  | head hstep _ ih =>
    intro hv hvs
    have hc := (hinv _ hv hvs).1 _ hstep
    exact ih hc.1 hc.2

/-- Once the fold of `hasCycle` has found a cycle, it keeps its state. -/
theorem hasCycleFold_true (edges : List GraphEdge) (fuel : Nat)
    (S : List String) :
    ∀ (es : List GraphEdge) (V : List String),
    es.foldlM (fun acc e =>
        if acc.1 then .ok acc
        else hasCycle edges fuel e.«to» acc.2 S)
      ((true, V) : Bool × List String) = .ok (true, V) := by
  intro es
  induction es with
  | nil => intro V; rfl
  | cons e es ih =>
    intro V
    rw [List.foldlM_cons, if_pos rfl, exceptBind_ok]
    exact ih V

/-- Folding `hasCycle` over a list of edges: when it completes without
finding a cycle, the visited set grows, the invariant is kept, and every
processed edge target is finished. -/
theorem hasCycleFold_false_inv (edges : List GraphEdge) (fuel : Nat)
    (S' : List String)
    (IH : ∀ (n : String) (V S V1 : List String),
      hasCycle edges fuel n V S = .ok (false, V1) →
      BlackInv edges V S →
      V ⊆ V1 ∧ n ∈ V1 ∧ n ∉ S ∧ BlackInv edges V1 S) :
    ∀ (es : List GraphEdge) (V0 V1 : List String),
    es.foldlM (fun acc e =>
        if acc.1 then .ok acc
        else hasCycle edges fuel e.«to» acc.2 S')
      ((false, V0) : Bool × List String) = .ok (false, V1) →
    BlackInv edges V0 S' →
    V0 ⊆ V1 ∧ BlackInv edges V1 S' ∧
      ∀ e ∈ es, e.«to» ∈ V1 ∧ e.«to» ∉ S' := by
  intro es
  induction es with
  | nil =>
    intro V0 V1 h hinv
    have hv : V0 = V1 := by
      have h' := h
      rw [List.foldlM_nil] at h'
      exact congrArg Prod.snd (Except.ok.inj h')
    subst hv
    exact ⟨fun _ hx => hx, hinv, by simp⟩
  | cons e es ih =>
    intro V0 V1 h hinv
    rw [List.foldlM_cons,
      if_neg (show ¬(((false, V0) : Bool × List String).1 = true) by simp)]
      at h
    rcases hres : hasCycle edges fuel e.«to» V0 S' with msg | p
    · rw [hres, exceptBind_err] at h
      cases h
    · rcases p with ⟨b, V2⟩
      cases b
      · rw [hres, exceptBind_ok] at h
        obtain ⟨hsub2, hto, htoS, hinv2⟩ := IH e.«to» V0 S' V2 hres hinv
        obtain ⟨hsub1, hinv1, hes⟩ := ih V2 V1 h hinv2
        refine ⟨fun x hx => hsub1 (hsub2 hx), hinv1, ?_⟩
        intro e' he'
        rcases List.mem_cons.mp he' with rfl | he'
        · exact ⟨hsub1 hto, htoS⟩
        · exact hes e' he'
      · rw [hres, exceptBind_ok, hasCycleFold_true] at h
        simp at h

/-- Soundness of a cycle-free `hasCycle` call: the visited set grows,
the node is finished afterwards, and the invariant is preserved. -/
theorem hasCycle_false_inv (edges : List GraphEdge) :
    ∀ (fuel : Nat) (n : String) (V S V1 : List String),
    hasCycle edges fuel n V S = .ok (false, V1) →
    BlackInv edges V S →
    V ⊆ V1 ∧ n ∈ V1 ∧ n ∉ S ∧ BlackInv edges V1 S := by
  intro fuel
  induction fuel with
  | zero =>
    intro n V S V1 h
    exact absurd h (by simp [hasCycle])
  | succ fuel IH =>
    intro n V S V1 h hinv
    simp only [hasCycle] at h
    split at h
    · rename_i hS
      simp at h
    · rename_i hS
      split at h
      · rename_i hV
        have hp := Except.ok.inj h
        have hVeq : V = V1 := congrArg Prod.snd hp
        subst hVeq
        simp at hS hV
        exact ⟨fun _ hx => hx, hV, hS, hinv⟩
      · rename_i hV
        simp at hS hV
        have hinv0 : BlackInv edges (setAdd V n) (S ++ [n]) := by
          intro v hv hvS
          have hvn : v ≠ n := fun he => hvS (by simp [he])
          have hvV : v ∈ V := (mem_setAdd.mp hv).resolve_right hvn
          have hvS2 : v ∉ S := fun hh => hvS (by simp [hh])
          obtain ⟨hcl, hnd⟩ := hinv v hvV hvS2
          refine ⟨fun y hy => ?_, hnd⟩
          obtain ⟨hyV, hyS⟩ := hcl y hy
          have hyn : y ≠ n := fun he => hV (he ▸ hyV)
          refine ⟨subset_setAdd _ _ hyV, ?_⟩
          simp [hyS, hyn]
        obtain ⟨hsub, hinv1, hsucc⟩ :=
          hasCycleFold_false_inv edges fuel (S ++ [n]) IH _ _ _ h hinv0
        have hnV1 : n ∈ V1 := hsub (self_mem_setAdd V n)
        refine ⟨fun x hx => hsub (subset_setAdd _ _ hx), hnV1, hS, ?_⟩
        intro v hv hvS
        by_cases hvn : v = n
        · subst hvn
          constructor
          · intro y hy
            obtain ⟨e, he, hef, het⟩ := hy
            have heF : e ∈ edges.filter (fun e' => e'.«from» = v) := by
              simp [List.mem_filter, he, hef]
            obtain ⟨hyV1, hyS1⟩ := hsucc e heF
            rw [het] at hyV1 hyS1
            exact ⟨hyV1, fun hh => hyS1 (by simp [hh])⟩
          · rintro ⟨y, hstep, hreach⟩
            obtain ⟨e, he, hef, het⟩ := hstep
            have heF : e ∈ edges.filter (fun e' => e'.«from» = v) := by
              simp [List.mem_filter, he, hef]
            obtain ⟨hyV1, hyS1⟩ := hsucc e heF
            rw [het] at hyV1 hyS1
            have hb := black_reaches hinv1 hreach hyV1 hyS1
            exact hb.2 (by simp)
        · have hvS2 : v ∉ S ++ [n] := by
            intro hh
            rcases List.mem_append.mp hh with hh1 | hh1
            · exact hvS hh1
            · exact hvn (by simpa using hh1)
          obtain ⟨hcl, hnd⟩ := hinv1 v hv hvS2
          refine ⟨fun y hy => ?_, hnd⟩
          obtain ⟨hyV, hyS⟩ := hcl y hy
          exact ⟨hyV, fun hh => hyS (by simp [hh])⟩

theorem length_filter_mono {α : Type} (l : List α) (p q : α → Bool)
    (h : ∀ a, p a = true → q a = true) :
    (l.filter p).length ≤ (l.filter q).length := by
  induction l with
  | nil => simp
  | cons a l ih =>
    rw [List.filter_cons, List.filter_cons]
    cases hp : p a <;> cases hq : q a
    · simpa using ih
    · rw [if_neg (by simp), if_pos rfl]
      simp only [List.length_cons]
      omega
    · exact absurd (h a hp) (by simp [hq])
    · rw [if_pos rfl, if_pos rfl]
      simp only [List.length_cons]
      omega

/-- `contains` over a stack extended by one element, pointwise. -/
theorem not_contains_append_single (S : List String) (n x : String) :
    (!(S ++ [n]).contains x) = ((!S.contains x) && !(x == n)) := by
  rcases hc : S.contains x with _ | _ <;> rcases he : x == n with _ | _ <;>
    simp_all

/-- Pushing a fresh node on the stack strictly shrinks the set of node
ids off the stack. -/
theorem filter_stack_lt (keys S : List String) (n : String)
    (hn : n ∈ keys) (hnS : n ∉ S) :
    (keys.filter (fun x => !(S ++ [n]).contains x)).length <
      (keys.filter (fun x => !S.contains x)).length := by
  induction keys with
  | nil => cases hn
  | cons k ks ih =>
    rw [List.filter_cons, List.filter_cons]
    by_cases hk : k = n
    · subst hk
      rw [show (!(S ++ [k]).contains k) = false by simp,
        show (!S.contains k) = true by simp [hnS]]
      rw [if_neg (by simp), if_pos rfl]
      simp only [List.length_cons]
      have hmono := length_filter_mono ks
        (fun x => !(S ++ [k]).contains x) (fun x => !S.contains x)
        (fun a ha => by
          simp only [] at ha ⊢
          rw [not_contains_append_single] at ha
          simp only [Bool.and_eq_true] at ha
          exact ha.1)
      omega
    · have hn2 : n ∈ ks := by
        rcases List.mem_cons.mp hn with rfl | hh
        · exact absurd rfl hk
        · exact hh
      have heq : (!(S ++ [n]).contains k) = (!S.contains k) := by
        rw [not_contains_append_single]
        simp [hk]
      rw [heq]
      cases hc : (!S.contains k)
      · rw [if_neg (by simp), if_neg (by simp)]
        exact ih hn2
      · rw [if_pos rfl, if_pos rfl]
        simp only [List.length_cons]
        have := ih hn2
        omega

/-- Folding `hasCycle` never runs out of fuel when the per-call fuel is
sufficient for the stack. -/
theorem hasCycleFold_ok (edges : List GraphEdge) (keys : List String)
    (fuel : Nat) (S' : List String)
    (IH : ∀ (n : String) (V S : List String), n ∈ keys →
      (∀ s ∈ S, s ∈ keys) →
      (keys.filter (fun x => !S.contains x)).length < fuel →
      ∃ r, hasCycle edges fuel n V S = .ok r)
    (hS : ∀ s ∈ S', s ∈ keys)
    (hfuel : (keys.filter (fun x => !S'.contains x)).length < fuel) :
    ∀ (es : List GraphEdge), (∀ e ∈ es, e.«to» ∈ keys) →
    ∀ (acc : Bool × List String),
    ∃ r, es.foldlM (fun acc e =>
        if acc.1 then .ok acc
        else hasCycle edges fuel e.«to» acc.2 S') acc = .ok r := by
  intro es
  induction es with
  | nil =>
    intro _ acc
    exact ⟨acc, rfl⟩
  | cons e es ih =>
    intro hes acc
    rw [List.foldlM_cons]
    rcases acc with ⟨b, V⟩
    cases b
    · obtain ⟨r1, hr1⟩ := IH e.«to» V S' (hes e (by simp)) hS hfuel
      rw [if_neg (show ¬(((false, V) : Bool × List String).1 = true)
        by simp), hr1, exceptBind_ok]
      exact ih (fun e' he' => hes e' (by simp [he'])) r1
    · rw [if_pos rfl, exceptBind_ok]
      exact ih (fun e' he' => hes e' (by simp [he'])) (true, V)

/-- `hasCycle` returns (rather than running out of fuel) whenever the
fuel exceeds the number of node ids off the stack and every edge target
is a node id. -/
theorem hasCycle_fuel_ok (edges : List GraphEdge) (keys : List String)
    (hwf : ∀ e ∈ edges, e.«to» ∈ keys) :
    ∀ (fuel : Nat) (n : String) (V S : List String), n ∈ keys →
    (∀ s ∈ S, s ∈ keys) →
    (keys.filter (fun x => !S.contains x)).length < fuel →
    ∃ r, hasCycle edges fuel n V S = .ok r := by
  intro fuel
  induction fuel with
  | zero =>
    intro n V S _ _ hlt
    exact absurd hlt (Nat.not_lt_zero _)
  | succ fuel IH =>
    intro n V S hn hS hlt
    simp only [hasCycle]
    split
    · exact ⟨(true, V), rfl⟩
    · split
      · exact ⟨(false, V), rfl⟩
      · rename_i hnS hnV
        simp at hnS hnV
        have hdec := filter_stack_lt keys S n hn hnS
        have hfuel2 : (keys.filter
            (fun x => !(S ++ [n]).contains x)).length < fuel := by
          omega
        have hS2 : ∀ s ∈ S ++ [n], s ∈ keys := by
          intro s hs
          rcases List.mem_append.mp hs with hs1 | hs1
          · exact hS s hs1
          · have hsn : s = n := by simpa using hs1
            rw [hsn]
            exact hn
        exact hasCycleFold_ok edges keys fuel (S ++ [n]) IH hS2 hfuel2
          (edges.filter (fun e => e.«from» = n))
          (fun e he => hwf e (List.mem_of_mem_filter he))
          (false, setAdd V n)

/-- The outer cycle-check loop: it either finishes every node id while
keeping the invariant, or throws the cycle error. -/
theorem cycleLoop_cases (g : RunnableGraph)
    (hwf : ∀ e ∈ g.edges, e.«to» ∈ g.nodes.map Prod.fst) :
    ∀ (ks V : List String), (∀ k ∈ ks, k ∈ g.nodes.map Prod.fst) →
    BlackInv g.edges V [] →
    (∃ V1, ks.foldlM (cycleLoopStep g) V = .ok V1 ∧
      BlackInv g.edges V1 [] ∧ V ⊆ V1 ∧ ∀ k ∈ ks, k ∈ V1) ∨
    ks.foldlM (cycleLoopStep g) V = .error "Graph contains cycles" := by
  intro ks
  induction ks with
  | nil =>
    intro V _ hinv
    exact Or.inl ⟨V, rfl, hinv, fun _ hx => hx, by simp⟩
  | cons k ks ih =>
    intro V hks hinv
    obtain ⟨r, hr⟩ := hasCycle_fuel_ok g.edges (g.nodes.map Prod.fst) hwf
      (g.nodes.length + 1) k V [] (hks k (by simp)) (by simp)
      (by simp [List.length_map])
    rw [List.foldlM_cons]
    rcases r with ⟨b, V2⟩
    cases b
    · have hstep : cycleLoopStep g V k = .ok V2 := by
        unfold cycleLoopStep
        rw [hr]
      obtain ⟨hsub, hkV2, _, hinv2⟩ :=
        hasCycle_false_inv g.edges _ k V [] V2 hr hinv
      rw [hstep, exceptBind_ok]
      rcases ih V2 (fun k2 hk2 => hks k2 (by simp [hk2])) hinv2 with
        ⟨V1, hfold, hinv1, hsub1, hmem⟩ | hfold
      · refine Or.inl ⟨V1, hfold, hinv1, fun x hx => hsub1 (hsub hx), ?_⟩
        intro k2 hk2
        rcases List.mem_cons.mp hk2 with rfl | hk3
        · exact hsub1 hkV2
        · exact hmem k2 hk3
      · exact Or.inr hfold
    · have hstep : cycleLoopStep g V k = .error "Graph contains cycles" := by
        unfold cycleLoopStep
        rw [hr]
      rw [hstep, exceptBind_err]
      exact Or.inr rfl

/-- Completeness of the legacy cycle check: a graph whose edges form a
directed cycle through a node id makes `#validateGraph` throw the
"Graph contains cycles" error (at `invoke` time). -/
theorem jsValidateGraph_cycle (g : RunnableGraph) (k : String)
    (hk : k ∈ g.nodes.map Prod.fst)
    (hdoom : Doomed g.edges k)
    (hwf : ∀ e ∈ g.edges, e.«to» ∈ g.nodes.map Prod.fst)
    (hent : g.entryNodes.length ≠ 0)
    (hexit : g.exitNodes.length ≠ 0) :
    jsValidateGraph g = some "Graph contains cycles" := by
  have hn0 : g.nodes.length ≠ 0 := by
    intro h0
    rw [List.length_eq_zero] at h0
    rw [h0] at hk
    simp at hk
  unfold jsValidateGraph
  rw [if_neg hn0, if_neg hent, if_neg hexit]
  rcases cycleLoop_cases g hwf (g.nodes.map Prod.fst) [] (fun _ hx => hx)
      (fun v hv => absurd hv (by simp)) with
    ⟨V1, hfold, hinv1, _, hmem⟩ | hfold
  · exact absurd hdoom (hinv1 k (hmem k hk) (by simp)).2
  · rw [hfold]

theorem data_head_append (a b : String) (c : Char)
    (h : a.data.head? = some c) : (a ++ b).data.head? = some c := by
  rw [String.data_append]
  cases ha : a.data with
  | nil =>
    rw [ha] at h
    cases h
  | cons x xs =>
    rw [ha] at h
    simp only [List.head?_cons, Option.some.injEq] at h
    simp [h]

theorem string_ne_of_head {a b : String} {c d : Char}
    (ha : a.data.head? = some c) (hb : b.data.head? = some d)
    (hcd : c ≠ d) : a ≠ b := by
  intro he
  rw [he, hb] at ha
  exact hcd (Option.some.inj ha).symm

/-- The legacy connection-schema validation never yields the cycle
error. -/
theorem jsVCS_ne_cycle (g : RunnableGraph) (f t fo : String) :
    jsValidateConnectionSchema g f t fo ≠ some "Graph contains cycles" := by
  unfold jsValidateConnectionSchema
  split
  · split
    · split
      · simp
      · simp only []
        split
        · simp
        · intro h
          have hs := Option.some.inj h
          have h1 : ("Schema incompatibility between '" :
              String).data.head? = some 'S' := rfl
          exact string_ne_of_head
            (data_head_append _ _ _ (data_head_append _ _ _
              (data_head_append _ _ _ (data_head_append _ _ _
                (data_head_append _ f _ h1)))))
            (show ("Graph contains cycles" : String).data.head? =
              some 'G' from rfl) (by decide) hs
    · simp
  · simp

/-- Legacy `connect` never raises the cycle error. -/
theorem jsConnect_ne_cycle (g : RunnableGraph) (f t : String)
    (cfg : ConnectConfig) :
    (jsConnect g f t cfg).1 ≠ some "Graph contains cycles" := by
  unfold jsConnect
  split
  · simp only []
    intro h
    have hs := Option.some.inj h
    have h1 : ("Source node '" : String).data.head? = some 'S' := rfl
    exact string_ne_of_head (data_head_append _ _ _
      (data_head_append _ f _ h1))
      (show ("Graph contains cycles" : String).data.head? =
        some 'G' from rfl) (by decide) hs
  · split
    · simp only []
      intro h
      have hs := Option.some.inj h
      have h1 : ("Target node '" : String).data.head? = some 'T' := rfl
      exact string_ne_of_head (data_head_append _ _ _
        (data_head_append _ t _ h1))
        (show ("Graph contains cycles" : String).data.head? =
          some 'G' from rfl) (by decide) hs
    · simp only []
      exact jsVCS_ne_cycle _ f t _

/-- **C8 (amended).**  A directed cycle is not reported from the
construction call: legacy `connect` (the claim\'s cited code) never
raises the "Graph contains cycles" error, even when called on a graph
whose edge set already contains a directed cycle; instead
`#validateGraph`, which `invoke` runs first at execution time, raises
exactly that error on every graph whose edges form a directed cycle
through a node id (with edge targets that are node ids and a non-empty
entry/exit configuration). -/
theorem c8_cycle_check_deferred (g : RunnableGraph)
    (fromId toId : String) (cfg : ConnectConfig) (k : String)
    (hk : k ∈ g.nodes.map Prod.fst)
    (hdoom : Doomed g.edges k)
    (hwf : ∀ e ∈ g.edges, e.«to» ∈ g.nodes.map Prod.fst)
    (hent : g.entryNodes.length ≠ 0)
    (hexit : g.exitNodes.length ≠ 0) :
    (jsConnect g fromId toId cfg).1 ≠ some "Graph contains cycles" ∧
    jsValidateGraph g = some "Graph contains cycles" :=
  ⟨jsConnect_ne_cycle g fromId toId cfg,
   jsValidateGraph_cycle g k hk hdoom hwf hent hexit⟩

/-- Witness for `c8_cycle_check_deferred` on the concrete cyclic graph
`c8Graph2`. -/
theorem c8_cycle_check_deferred_witness :
    (jsConnect c8Graph2 "a" "b" (ConnectConfig.mk none none none)).1 ≠
      some "Graph contains cycles" ∧
    jsValidateGraph c8Graph2 = some "Graph contains cycles" :=
  c8_cycle_check_deferred c8Graph2 "a" "b" (ConnectConfig.mk none none none)
    "a" (by decide)
    ⟨"b", ⟨GraphEdge.mk "a" "b" "output" "input" none, List.Mem.head _,
      rfl, rfl⟩,
     Relation.ReflTransGen.single
      ⟨GraphEdge.mk "b" "a" "output" "input" none,
       List.Mem.tail _ (List.Mem.head _), rfl, rfl⟩⟩
    (by
      intro e he
      have hed : c8Graph2.edges =
          [GraphEdge.mk "a" "b" "output" "input" none,
           GraphEdge.mk "b" "a" "output" "input" none] := rfl
      rw [hed] at he
      rcases List.mem_cons.mp he with rfl | he2
      · decide
      · rcases List.mem_cons.mp he2 with rfl | he3
        · decide
        · cases he3)
    (by decide) (by decide)

/-- **C8, counterexample.**  The two legacy `connect` calls that create
the directed cycle `a → b → a` both return without any error; the
"Graph contains cycles" error only appears when `#validateGraph` runs
at execution time. -/
theorem c8_counterexample :
    (jsConnect c8Graph0 "a" "b" (ConnectConfig.mk none none none)).1 =
      none ∧
    (jsConnect c8Graph1 "b" "a" (ConnectConfig.mk none none none)).1 =
      none ∧
    EdgeStep c8Graph2.edges "a" "b" ∧ EdgeStep c8Graph2.edges "b" "a" ∧
    jsValidateGraph c8Graph2 = some "Graph contains cycles" :=
  ⟨rfl, rfl,
   ⟨GraphEdge.mk "a" "b" "output" "input" none, List.Mem.head _, rfl, rfl⟩,
   ⟨GraphEdge.mk "b" "a" "output" "input" none,
    List.Mem.tail _ (List.Mem.head _), rfl, rfl⟩,
   rfl⟩

/-- Observational agreement of a (possibly partial) execution context
with the final context `ctxA` of a completed reference run: every
completed node is completed in the reference with the same recorded
result, every named output present agrees with the reference, no node
has failed, and the graph input is the same. -/
def AgreeInv (ctxA ctx : GraphExecutionContext) : Prop :=
  (∀ n ∈ ctx.completedNodes, n ∈ ctxA.completedNodes) ∧
  (∀ n ∈ ctx.completedNodes,
    ctx.nodeResults.lookup n = ctxA.nodeResults.lookup n) ∧
  (∀ key v, ctx.nodeOutputs.lookup key = some v →
    ctxA.nodeOutputs.lookup key = some v) ∧
  ctx.failedNodes = [] ∧
  ctx.graphInput = ctxA.graphInput

/-- Self-coherence of the final context of a successful run: every
completed node\'s recorded result is its runnable applied to the input
rebuilt from the final context itself, and its recorded named outputs
are the corresponding projections of that result. -/
def ACoherent (g : RunnableGraph) (ctxA : GraphExecutionContext) : Prop :=
  ∀ n node, g.nodes.lookup n = some node → n ∈ ctxA.completedNodes →
    ∃ inp evs v,
      (if g.entryNodes.contains n then Except.ok ctxA.graphInput
       else g.buildNodeInput n ctxA) = .ok inp ∧
      node.runnable.run inp = (evs, Except.ok v) ∧
      ctxA.nodeResults.lookup n = some v ∧
      ((node.outputs.length = 1 ∧ node.outputs.headD "" = "output") →
        ctxA.nodeOutputs.lookup (n ++ "." ++ "output") = some v) ∧
      (node.outputs.length > 0 →
        ¬(node.outputs.length = 1 ∧ node.outputs.headD "" = "output") →
        ∀ slot ∈ node.outputs,
          (jsIsObject v && jsHasKey v slot) = true ∧
          ctxA.nodeOutputs.lookup (n ++ "." ++ slot) =
            some ((jsGet v slot).getD .undef))

theorem mem_keys_of_lookup {β : Type} {l : List (String × β)} {k : String}
    {v : β} (h : l.lookup k = some v) : k ∈ l.map Prod.fst := by
  induction l with
  | nil => cases h
  | cons p l ih =>
    rw [List.lookup] at h
    rcases hk : (k == p.1) with _ | _
    · rw [hk] at h
      exact List.mem_cons_of_mem _ (ih h)
    · have : k = p.1 := by simpa using hk
      rw [this]
      exact List.mem_cons_self _ _

theorem lookup_assocSet_cases {β : Type} (l : List (String × β))
    (k key : String) (v : β) :
    (assocSet l k v).lookup key =
      if key = k then some v else l.lookup key := by
  by_cases h : key = k
  · rw [if_pos h, h]
    exact lookup_assocSet_self k v l
  · rw [if_neg h]
    exact lookup_assocSet_other k key v h l

/-- A present entry after the storing loop is either an old entry or one
of the written slots. -/
theorem storeOutputs_lookup_some (nodeId : String) (result : JsValue) :
    ∀ (outs : List String) (m m' : List (String × JsValue))
      (e : Option String),
      storeOutputs nodeId outs result m = (m', e) →
      ∀ key v, m'.lookup key = some v →
        m.lookup key = some v ∨
        ∃ k ∈ outs, key = nodeId ++ "." ++ k ∧
          v = (jsGet result k).getD .undef := by
  intro outs
  induction outs with
  | nil =>
    intro m m' e h key v hv
    rw [storeOutputs] at h
    cases h
    exact Or.inl hv
  | cons k0 rest ih =>
    intro m m' e h key v hv
    rw [storeOutputs] at h
    split at h
    · rcases ih _ _ _ h key v hv with hold | ⟨k, hk, hkey, hval⟩
      · rw [lookup_assocSet_cases] at hold
        split at hold
        · rename_i hkey0
          exact Or.inr ⟨k0, List.mem_cons_self _ _, hkey0,
            (Option.some.inj hold).symm⟩
        · exact Or.inl hold
      · exact Or.inr ⟨k, List.mem_cons_of_mem _ hk, hkey, hval⟩
    · cases h
      exact Or.inl hv

/-- With no failed node, no node has failed dependencies. -/
theorem dependenciesFailed_false_of_nofail (g : RunnableGraph)
    (nodeId : String) (ctx : GraphExecutionContext)
    (hfail : ctx.failedNodes = []) :
    g.dependenciesFailed nodeId ctx = false := by
  unfold RunnableGraph.dependenciesFailed
  split
  · rfl
  · rw [List.any_eq_false]
    intro kv _
    simp [hfail]

/-- The sequential loop is frozen once an error has been thrown. -/
theorem execSeq_err_some (g : RunnableGraph) :
    ∀ (order : List String) (st : ExecState) (e : String),
    st.err = some e → g.execSeq order st = st := by
  intro order
  induction order with
  | nil => intro st e _; rfl
  | cons m rest ih =>
    intro st e he
    rw [RunnableGraph.execSeq]
    rw [if_pos (by simp [he])]

/-- `buildNodeInput` only reads the gated output entries, so agreeing
contexts build the same input. -/
theorem buildNodeInput_agree (g : RunnableGraph)
    (ctxA ctx : GraphExecutionContext) (nodeId : String) (node : GraphNode)
    (hnode : g.nodes.lookup nodeId = some node)
    (hinv3 : ∀ key v, ctx.nodeOutputs.lookup key = some v →
      ctxA.nodeOutputs.lookup key = some v)
    (hgate : node.inputMappings.all (fun kv =>
      let sm := jsSplit2 kv.2
      ctx.completedNodes.contains sm.1 &&
      (ctx.nodeOutputs.lookup (sm.1 ++ "." ++ sm.2)).isSome) = true)
    (hnotsingle : ¬(node.inputs.length = 1 ∧
      node.inputs.headD "" = "input" ∧ node.inputMappings.length = 0)) :
    g.buildNodeInput nodeId ctx = g.buildNodeInput nodeId ctxA := by
  unfold RunnableGraph.buildNodeInput
  rw [hnode]
  simp only []
  rw [if_neg (by
    intro hh
    simp only [Bool.and_eq_true, decide_eq_true_eq] at hh
    exact hnotsingle ⟨hh.1.1, hh.1.2, hh.2⟩)]
  rw [if_neg (by
    intro hh
    simp only [Bool.and_eq_true, decide_eq_true_eq] at hh
    exact hnotsingle ⟨hh.1.1, hh.1.2, hh.2⟩)]
  have hmap : node.inputMappings.map (fun kv =>
      let inputKey := kv.1
      let sm := jsSplit2 kv.2
      let v := (ctx.nodeOutputs.lookup (sm.1 ++ "." ++ sm.2)).getD .undef
      let edge := g.edges.find? (fun e =>
        e.«from» = sm.1 && e.«to» = nodeId && e.fromOutput = sm.2 &&
        e.toInput = inputKey)
      (inputKey, match edge with
        | some e => applyTransform e.transform v
        | none => v)) =
    node.inputMappings.map (fun kv =>
      let inputKey := kv.1
      let sm := jsSplit2 kv.2
      let v := (ctxA.nodeOutputs.lookup (sm.1 ++ "." ++ sm.2)).getD .undef
      let edge := g.edges.find? (fun e =>
        e.«from» = sm.1 && e.«to» = nodeId && e.fromOutput = sm.2 &&
        e.toInput = inputKey)
      (inputKey, match edge with
        | some e => applyTransform e.transform v
        | none => v)) := by
    apply List.map_congr_left
    intro kv hkv
    rw [List.all_eq_true] at hgate
    have hg := hgate kv hkv
    simp only [Bool.and_eq_true] at hg
    obtain ⟨w, hw⟩ := Option.isSome_iff_exists.mp hg.2
    have hwA := hinv3 _ _ hw
    simp only [hw, hwA]
  rw [hmap]

/-- Executing a gated node in a context that agrees with a coherent,
reference-completed run succeeds, and the agreement is preserved. -/
theorem c4_executeNode_agree (g : RunnableGraph)
    (ctxA : GraphExecutionContext)
    (hstart : g.nodes.lookup "start" = none)
    (hcoh : ACoherent g ctxA)
    (nodeId : String) (node : GraphNode)
    (ctx : GraphExecutionContext) (pers : GraphPersistence)
    (hnode : g.nodes.lookup nodeId = some node)
    (hnA : nodeId ∈ ctxA.completedNodes)
    (hinv : AgreeInv ctxA ctx)
    (hce : g.canExecuteNode nodeId ctx = true) :
    (g.executeNode nodeId ctx pers).err = none ∧
    AgreeInv ctxA (g.executeNode nodeId ctx pers).ctx := by
  obtain ⟨hinv1, hinv2, hinv3, hinv4, hinv5⟩ := hinv
  obtain ⟨inp, evs, v, hinp, hrun, hres, hsingleA, hmultiA⟩ :=
    hcoh nodeId node hnode hnA
  unfold RunnableGraph.canExecuteNode at hce
  rw [hnode] at hce
  simp only [] at hce
  split at hce
  · cases hce
  · rw [Bool.and_eq_true] at hce
    obtain ⟨hgate, horphan⟩ := hce
    have hinpB : (if g.entryNodes.contains nodeId then
        Except.ok ctx.graphInput else g.buildNodeInput nodeId ctx) =
        .ok inp := by
      rcases hentry : g.entryNodes.contains nodeId with _ | _
      · rw [if_neg (by rw [hentry]; simp)] at hinp
        rw [if_neg (by simp)]
        have hentryM : nodeId ∉ g.entryNodes := by simpa using hentry
        have hnstart : nodeId ≠ "start" := by
          intro hh
          rw [hh, hstart] at hnode
          cases hnode
        have hX : (decide (node.inputs.length > 0) &&
            decide (node.inputMappings.length = 0) &&
            decide (nodeId ≠ "start") &&
            !(g.entryNodes.contains nodeId)) = false := by
          rcases hb : (decide (node.inputs.length > 0) &&
              decide (node.inputMappings.length = 0) &&
              decide (nodeId ≠ "start") &&
              !(g.entryNodes.contains nodeId)) with _ | _
          · rfl
          · rw [hb] at horphan
            simp at horphan
        have hnotsingle : ¬(node.inputs.length = 1 ∧
            node.inputs.headD "" = "input" ∧
            node.inputMappings.length = 0) := by
          rintro ⟨hl1, _, hm0⟩
          rw [hl1, hm0] at hX
          simp [hnstart, hentryM] at hX
        rw [buildNodeInput_agree g ctxA ctx nodeId node hnode hinv3 hgate
          hnotsingle]
        exact hinp
      · rw [if_pos hentry] at hinp
        rw [if_pos rfl, hinv5]
        exact hinp
    unfold RunnableGraph.executeNode
    rw [hnode]
    simp only []
    rw [hinpB]
    simp only []
    rw [hrun]
    simp only []
    split
    · rename_i hlen0
      split
      · rename_i hsingleB
        simp only [Bool.and_eq_true, decide_eq_true_eq] at hsingleB
        have houtA := hsingleA hsingleB
        refine ⟨rfl, ?_, ?_, ?_, hinv4, hinv5⟩
        · intro m hm
          rcases mem_setAdd.mp hm with hm1 | rfl
          · exact hinv1 m hm1
          · exact hnA
        · intro m hm
          rw [lookup_assocSet_cases]
          split
          · rename_i hm2
            rw [hm2, hres]
          · rename_i hm2
            exact hinv2 m ((mem_setAdd.mp hm).resolve_right hm2)
        · intro key w hw
          rw [lookup_assocSet_cases] at hw
          split at hw
          · rename_i hkey
            rw [hkey, houtA]
            exact hw ▸ rfl
          · exact hinv3 key w hw
      · rename_i hsingleB
        have hnotsingleP : ¬(node.outputs.length = 1 ∧
            node.outputs.headD "" = "output") := by
          intro hh
          exact hsingleB (by rw [hh.1, hh.2]; simp)
        have hforall : ∀ k ∈ node.outputs,
            (jsIsObject v && jsHasKey v k) = true :=
          fun k hk => (hmultiA hlen0 hnotsingleP k hk).1
        have hnone := (storeOutputs_none_iff nodeId v node.outputs
          ctx.nodeOutputs).mpr hforall
        split
        · rename_i m1 hso
          refine ⟨rfl, ?_, ?_, ?_, hinv4, hinv5⟩
          · intro m hm
            rcases mem_setAdd.mp hm with hm1 | rfl
            · exact hinv1 m hm1
            · exact hnA
          · intro m hm
            rw [lookup_assocSet_cases]
            split
            · rename_i hm2
              rw [hm2, hres]
            · rename_i hm2
              exact hinv2 m ((mem_setAdd.mp hm).resolve_right hm2)
          · intro key w hw
            rcases storeOutputs_lookup_some nodeId v node.outputs
                ctx.nodeOutputs m1 none hso key w hw with
              hold | ⟨k, hk, hkey, hval⟩
            · exact hinv3 key w hold
            · rw [hkey, hval]
              exact (hmultiA hlen0 hnotsingleP k hk).2
        · rename_i m1 e1 hso
          rw [hso] at hnone
          simp at hnone
    · refine ⟨rfl, ?_, ?_, hinv3, hinv4, hinv5⟩
      · intro m hm
        rcases mem_setAdd.mp hm with hm1 | rfl
        · exact hinv1 m hm1
        · exact hnA
      · intro m hm
        rw [lookup_assocSet_cases]
        split
        · rename_i hm2
          rw [hm2, hres]
        · rename_i hm2
          exact hinv2 m ((mem_setAdd.mp hm).resolve_right hm2)

/-- One sequential-loop iteration preserves the agreement when it does
not throw. -/
theorem c4_step_agree (g : RunnableGraph) (ctxA : GraphExecutionContext)
    (hstart : g.nodes.lookup "start" = none)
    (hallA : ∀ n ∈ g.nodes.map Prod.fst, n ∈ ctxA.completedNodes)
    (hcoh : ACoherent g ctxA)
    (nodeId : String) (st : ExecState)
    (hinv : AgreeInv ctxA st.ctx)
    (herr2 : (g.execSeqStep nodeId st).err = none) :
    AgreeInv ctxA (g.execSeqStep nodeId st).ctx := by
  unfold RunnableGraph.execSeqStep at herr2 ⊢
  by_cases h1 : (st.ctx.completedNodes.contains nodeId ||
      st.ctx.failedNodes.contains nodeId) = true
  · rw [if_pos h1]
    exact hinv
  · rw [if_neg h1] at herr2 ⊢
    by_cases h2 : g.canExecuteNode nodeId st.ctx = true
    · rw [if_neg (by simp [h2])] at herr2 ⊢
      simp only [] at herr2 ⊢
      rcases hlk : g.nodes.lookup nodeId with _ | node
      · have hre : (g.executeNode nodeId st.ctx st.pers).err =
            some ("Node '" ++ nodeId ++ "' does not exist") := by
          unfold RunnableGraph.executeNode
          rw [hlk]
        rw [hre] at herr2
        simp only [hlk] at herr2
        simp at herr2
      · have hexec := c4_executeNode_agree g ctxA hstart hcoh nodeId node
          st.ctx st.pers hlk (hallA nodeId (mem_keys_of_lookup hlk))
          hinv h2
        rw [hexec.1]
        simp only []
        exact hexec.2
    · have h2f : g.canExecuteNode nodeId st.ctx = false := by
        rcases hx : g.canExecuteNode nodeId st.ctx with _ | _
        · rfl
        · exact absurd hx h2
      rw [if_pos (by rw [h2f]; rfl)] at herr2
      rw [if_neg (by
        rw [dependenciesFailed_false_of_nofail g nodeId st.ctx
          hinv.2.2.2.1]
        simp)] at herr2
      simp at herr2

/-- The sequential loop preserves the agreement when it completes
without a thrown error. -/
theorem c4_execSeq_agree (g : RunnableGraph) (ctxA : GraphExecutionContext)
    (hstart : g.nodes.lookup "start" = none)
    (hallA : ∀ n ∈ g.nodes.map Prod.fst, n ∈ ctxA.completedNodes)
    (hcoh : ACoherent g ctxA) :
    ∀ (order : List String) (st : ExecState),
    AgreeInv ctxA st.ctx → (g.execSeq order st).err = none →
    AgreeInv ctxA (g.execSeq order st).ctx := by
  intro order
  induction order with
  | nil =>
    intro st hinv _
    exact hinv
  | cons m rest ih =>
    intro st hinv herr
    rw [RunnableGraph.execSeq] at herr ⊢
    by_cases hso : st.err.isSome = true
    · rw [if_pos hso] at herr ⊢
      exact hinv
    · rw [if_neg hso] at herr ⊢
      by_cases hstep : (g.execSeqStep m st).err = none
      · exact ih _ (c4_step_agree g ctxA hstart hallA hcoh m st hinv hstep)
          herr
      · obtain ⟨e, he⟩ := Option.ne_none_iff_exists'.mp hstep
        rw [execSeq_err_some g rest _ e he] at herr
        exact absurd herr hstep

/-- One loop iteration never removes a node from the completed set. -/
theorem execSeqStep_completed_mono (g : RunnableGraph) (m : String)
    (st : ExecState) (n : String) (hn : n ∈ st.ctx.completedNodes) :
    n ∈ (g.execSeqStep m st).ctx.completedNodes := by
  unfold RunnableGraph.execSeqStep
  simp only []
  repeat' split
  all_goals first
    | exact hn
    | (rcases executeNode_ctx_completedNodes g m st.ctx st.pers with hc | hc
       · rw [hc]; exact hn
       · rw [hc]; exact subset_setAdd _ _ hn)

/-- One loop iteration never removes a node from the failed set. -/
theorem execSeqStep_failed_mono (g : RunnableGraph) (m : String)
    (st : ExecState) (n : String) (hn : n ∈ st.ctx.failedNodes) :
    n ∈ (g.execSeqStep m st).ctx.failedNodes := by
  unfold RunnableGraph.execSeqStep
  simp only []
  repeat' split
  all_goals first
    | exact hn
    | exact subset_setAdd _ _ hn
    | (rw [executeNode_ctx_failedNodes g m st.ctx st.pers]; exact hn)
    | (show n ∈ setAdd (g.executeNode m st.ctx st.pers).ctx.failedNodes m
       rw [executeNode_ctx_failedNodes g m st.ctx st.pers]
       exact subset_setAdd _ _ hn)

/-- Every event of one `#executeNode` call names the executed node. -/
theorem executeNode_events (g : RunnableGraph) (m : String)
    (ctx : GraphExecutionContext) (pers : GraphPersistence) :
    ∀ ev ∈ (g.executeNode m ctx pers).events,
      ev = GraphEvent.startNode m ∨
      (∃ x, ev = GraphEvent.nodeEvent m x) ∨
      ev = GraphEvent.completeNode m := by
  unfold RunnableGraph.executeNode
  simp only []
  repeat' split
  all_goals intro ev hev
  all_goals first
    | (exact absurd hev (List.not_mem_nil ev))
    | (exact Or.inl (List.mem_singleton.mp hev))
    | (rcases List.mem_append.mp hev with h | h
       · exact Or.inl (List.mem_singleton.mp h)
       · obtain ⟨x, _, hx⟩ := List.mem_map.mp h
         exact Or.inr (Or.inl ⟨x, hx.symm⟩))
    | (rcases List.mem_append.mp hev with h | h
       · rcases List.mem_append.mp h with h2 | h2
         · exact Or.inl (List.mem_singleton.mp h2)
         · obtain ⟨x, _, hx⟩ := List.mem_map.mp h2
           exact Or.inr (Or.inl ⟨x, hx.symm⟩)
       · exact Or.inr (Or.inr (List.mem_singleton.mp h)))

/-- Every event added by one loop iteration names the stepped node, and
events are only added when the node was not already finished. -/
theorem execSeqStep_events (g : RunnableGraph) (m : String)
    (st : ExecState) :
    ∀ ev ∈ (g.execSeqStep m st).events,
      ev ∈ st.events ∨
      ((st.ctx.completedNodes.contains m ||
          st.ctx.failedNodes.contains m) = false ∧
       (ev = GraphEvent.startNode m ∨
        (∃ x, ev = GraphEvent.nodeEvent m x) ∨
        ev = GraphEvent.completeNode m ∨
        ∃ e, ev = GraphEvent.nodeError m e)) := by
  unfold RunnableGraph.execSeqStep
  by_cases h1 : (st.ctx.completedNodes.contains m ||
      st.ctx.failedNodes.contains m) = true
  · rw [if_pos h1]
    exact fun ev hev => Or.inl hev
  · have h1f : (st.ctx.completedNodes.contains m ||
        st.ctx.failedNodes.contains m) = false := by
      rcases hx : (st.ctx.completedNodes.contains m ||
          st.ctx.failedNodes.contains m) with _ | _
      · rfl
      · exact absurd hx h1
    rw [if_neg h1]
    simp only []
    repeat' split
    all_goals intro ev hev
    all_goals first
      | exact Or.inl hev
      | (rcases List.mem_append.mp hev with h | h
         · rcases List.mem_append.mp h with h2 | h2
           · exact Or.inl h2
           · rcases executeNode_events g m st.ctx st.pers ev h2 with
               h3 | h3 | h3
             · exact Or.inr ⟨h1f, Or.inl h3⟩
             · exact Or.inr ⟨h1f, Or.inr (Or.inl h3)⟩
             · exact Or.inr ⟨h1f, Or.inr (Or.inr (Or.inl h3))⟩
         · exact Or.inr ⟨h1f, Or.inr (Or.inr (Or.inr
             ⟨_, List.mem_singleton.mp h⟩))⟩)
      | (rcases List.mem_append.mp hev with h | h
         · exact Or.inl h
         · rcases executeNode_events g m st.ctx st.pers ev h with
             h3 | h3 | h3
           · exact Or.inr ⟨h1f, Or.inl h3⟩
           · exact Or.inr ⟨h1f, Or.inr (Or.inl h3)⟩
           · exact Or.inr ⟨h1f, Or.inr (Or.inr (Or.inl h3))⟩)

/-- One loop iteration appends to `invoked` only the stepped node, and
only when it was not already finished. -/
theorem execSeqStep_invoked_new (g : RunnableGraph) (m : String)
    (st : ExecState) :
    ∃ new, (g.execSeqStep m st).invoked = st.invoked ++ new ∧
      ∀ x ∈ new, x = m ∧ (st.ctx.completedNodes.contains m ||
        st.ctx.failedNodes.contains m) = false := by
  unfold RunnableGraph.execSeqStep
  by_cases h1 : (st.ctx.completedNodes.contains m ||
      st.ctx.failedNodes.contains m) = true
  · rw [if_pos h1]
    exact ⟨[], by simp, by simp⟩
  · have h1f : (st.ctx.completedNodes.contains m ||
        st.ctx.failedNodes.contains m) = false := by
      rcases hx : (st.ctx.completedNodes.contains m ||
          st.ctx.failedNodes.contains m) with _ | _
      · rfl
      · exact absurd hx h1
    rw [if_neg h1]
    simp only []
    repeat' split
    all_goals first
      | exact ⟨[], (List.append_nil _).symm, by simp⟩
      | (refine ⟨(g.executeNode m st.ctx st.pers).invoked, rfl, ?_⟩
         intro x hx
         rcases executeNode_invoked g m st.ctx st.pers with hi | hi
         · rw [hi] at hx
           exact absurd hx (by simp)
         · rw [hi] at hx
           exact ⟨List.mem_singleton.mp hx, h1f⟩)

/-- Along the loop, the completed set only grows. -/
theorem execSeq_completed_mono (g : RunnableGraph) :
    ∀ (order : List String) (st : ExecState) (n : String),
    n ∈ st.ctx.completedNodes →
    n ∈ (g.execSeq order st).ctx.completedNodes := by
  intro order
  induction order with
  | nil => exact fun st n hn => hn
  | cons m rest ih =>
    intro st n hn
    rw [RunnableGraph.execSeq]
    split
    · exact hn
    · exact ih _ n (execSeqStep_completed_mono g m st n hn)

/-- Along the loop, the failed set only grows. -/
theorem execSeq_failed_mono (g : RunnableGraph) :
    ∀ (order : List String) (st : ExecState) (n : String),
    n ∈ st.ctx.failedNodes →
    n ∈ (g.execSeq order st).ctx.failedNodes := by
  intro order
  induction order with
  | nil => exact fun st n hn => hn
  | cons m rest ih =>
    intro st n hn
    rw [RunnableGraph.execSeq]
    split
    · exact hn
    · exact ih _ n (execSeqStep_failed_mono g m st n hn)

/-- The loop never emits a "starting node" event for a node that is
already completed when it starts. -/
theorem execSeq_no_restart (g : RunnableGraph) :
    ∀ (order : List String) (st : ExecState) (n : String),
    n ∈ st.ctx.completedNodes →
    (∀ ev ∈ st.events, ev ≠ GraphEvent.startNode n) →
    ∀ ev ∈ (g.execSeq order st).events, ev ≠ GraphEvent.startNode n := by
  intro order
  induction order with
  | nil => exact fun st n _ hevs => hevs
  | cons m rest ih =>
    intro st n hn hevs
    rw [RunnableGraph.execSeq]
    split
    · exact hevs
    · refine ih _ n (execSeqStep_completed_mono g m st n hn) ?_
      intro ev hev
      rcases execSeqStep_events g m st ev hev with hold | ⟨hskip, hforms⟩
      · exact hevs ev hold
      · have hmn : m ≠ n := by
          rintro rfl
          rw [Bool.or_eq_false_iff] at hskip
          rw [(by simpa using hn : st.ctx.completedNodes.contains m = true)]
            at hskip
          exact Bool.noConfusion hskip.1
        rcases hforms with rfl | ⟨x, rfl⟩ | rfl | ⟨e, rfl⟩
        · intro hcontra
          injection hcontra with hc
          exact hmn hc
        · intro hcontra
          cases hcontra
        · intro hcontra
          cases hcontra
        · intro hcontra
          cases hcontra

/-- The loop invokes only runnables of nodes that were not already
completed or failed when it starts. -/
theorem execSeq_invoked_unfinished (g : RunnableGraph) :
    ∀ (order : List String) (st : ExecState) (n : String),
    (n ∈ st.ctx.completedNodes ∨ n ∈ st.ctx.failedNodes) →
    ∃ new, (g.execSeq order st).invoked = st.invoked ++ new ∧ n ∉ new := by
  intro order
  induction order with
  | nil => exact fun st n _ => ⟨[], (List.append_nil _).symm, by simp⟩
  | cons m rest ih =>
    intro st n hn
    rw [RunnableGraph.execSeq]
    split
    · exact ⟨[], (List.append_nil _).symm, by simp⟩
    · obtain ⟨new1, hnew1, hprop⟩ := execSeqStep_invoked_new g m st
      obtain ⟨new2, hnew2, hn2⟩ := ih (g.execSeqStep m st) n
        (by
          rcases hn with hn | hn
          · exact Or.inl (execSeqStep_completed_mono g m st n hn)
          · exact Or.inr (execSeqStep_failed_mono g m st n hn))
      refine ⟨new1 ++ new2, by rw [hnew2, hnew1, List.append_assoc], ?_⟩
      intro hmem
      rcases List.mem_append.mp hmem with h | h
      · obtain ⟨rfl, hskip⟩ := hprop n h
        rw [Bool.or_eq_false_iff] at hskip
        rcases hn with hn | hn
        · rw [(by simpa using hn :
            st.ctx.completedNodes.contains n = true)] at hskip
          exact Bool.noConfusion hskip.1
        · rw [(by simpa using hn :
            st.ctx.failedNodes.contains n = true)] at hskip
          exact Bool.noConfusion hskip.2
      · exact hn2 h

/-- Unfolding `invoke` for a run whose plan, sequential execution and
output collection all succeed. -/
theorem headD_mem_of_length_one {l : List String} (h : l.length = 1) :
    l.headD "" ∈ l := by
  cases l with
  | nil => simp at h
  | cons a t => simp

theorem invoke_eq_of_run (g : RunnableGraph) (input : JsValue)
    (pers : GraphPersistence) (order : List String) (st : ExecState)
    (out : JsValue)
    (hnodes : g.nodes.length ≠ 0)
    (hent : g.entryNodes.length ≠ 0)
    (hexit : g.exitNodes.length ≠ 0)
    (hplan : g.planExecution (restorePersistence pers input) = .ok order)
    (hst : g.execSeq order
      ⟨[], [], restorePersistence pers input, pers, none⟩ = st)
    (herr : st.err = none)
    (hout : g.collectOutput st.ctx = .ok out) :
    g.invoke input pers = ⟨[GraphEvent.graphStart g.name] ++ st.events ++
      [GraphEvent.graphComplete g.name st.ctx.completedNodes
        st.ctx.failedNodes], st.invoked, .ok out, st.pers⟩ := by
  unfold RunnableGraph.invoke
  rw [if_neg hnodes]
  rw [if_neg (show ¬((decide (g.entryNodes.length = 0) &&
    decide (g.name = "NoEntryGraph")) = true) by simp [hent])]
  rw [if_neg (show ¬((decide (g.exitNodes.length = 0) &&
    decide (g.name = "NoExitGraph")) = true) by simp [hexit])]
  simp only [if_neg hent, if_neg hexit]
  have hg : RunnableGraph.mk g.name g.nodes g.edges g.entryNodes
      g.exitNodes g.parallel g.maxConcurrency g.continueOnError = g := rfl
  rw [hg]
  rw [hplan]
  simp only []
  rw [hst, herr]
  simp only []
  rw [hout]

/-- Agreeing contexts assemble the same successful output. -/
theorem collectOutput_agree (g : RunnableGraph)
    (ctxA ctxB : GraphExecutionContext)
    (hinv : AgreeInv ctxA ctxB) (outA outB : JsValue)
    (hA : g.collectOutput ctxA = .ok outA)
    (hB : g.collectOutput ctxB = .ok outB) : outB = outA := by
  obtain ⟨hinv1, hinv2, _, _, _⟩ := hinv
  unfold RunnableGraph.collectOutput at hA hB
  rcases hfB : g.exitNodes.find?
      (fun nodeId => !ctxB.completedNodes.contains nodeId) with _ | e
  · rw [hfB] at hB
    have hcompB : ∀ x ∈ g.exitNodes, x ∈ ctxB.completedNodes := by
      intro x hx
      have hfx := List.find?_eq_none.mp hfB x hx
      simpa using hfx
    rcases hfA : g.exitNodes.find?
        (fun nodeId => !ctxA.completedNodes.contains nodeId) with _ | e2
    · rw [hfA] at hA
      by_cases hlen : g.exitNodes.length = 1
      · rw [if_pos hlen] at hA hB
        have hexmem : g.exitNodes.headD "" ∈ g.exitNodes :=
          headD_mem_of_length_one hlen
        have eA := Except.ok.inj hA
        have eB := Except.ok.inj hB
        rw [← eA, ← eB, hinv2 _ (hcompB _ hexmem)]
      · rw [if_neg hlen] at hA hB
        have eA := Except.ok.inj hA
        have eB := Except.ok.inj hB
        rw [← eA, ← eB]
        congr 1
        apply List.map_congr_left
        intro x hx
        simp only []
        rw [hinv2 x (hcompB x hx)]
    · rw [hfA] at hA
      simp only [] at hA
      by_cases hc : ctxA.failedNodes.contains e2 = true
      · rw [if_pos hc] at hA
        cases hA
      · rw [if_neg hc] at hA
        cases hA
  · rw [hfB] at hB
    simp only [] at hB
    by_cases hc : ctxB.failedNodes.contains e = true
    · rw [if_pos hc] at hB
      cases hB
    · rw [if_neg hc] at hB
      cases hB

/-- **C4.**  Resuming from a snapshot that agrees with a coherent fresh
run of the whole graph: the resumed `invoke` emits no "starting node"
event for any snapshot-completed node, invokes only runnables of nodes
outside the snapshot completed/failed sets, and, reaching output
collection, yields the same final result as the fresh uncached run. -/
theorem c4_resume_idempotent (g : RunnableGraph) (input : JsValue)
    (persMid : GraphPersistence)
    (orderA orderB : List String) (stA stB : ExecState)
    (outA outB : JsValue)
    (hnodes : g.nodes.length ≠ 0)
    (hent : g.entryNodes.length ≠ 0)
    (hexit : g.exitNodes.length ≠ 0)
    (hstart : g.nodes.lookup "start" = none)
    (hplanA : g.planExecution
      (restorePersistence GraphPersistence.empty input) = .ok orderA)
    (hstA : g.execSeq orderA ⟨[], [],
      restorePersistence GraphPersistence.empty input,
      GraphPersistence.empty, none⟩ = stA)
    (herrA : stA.err = none)
    (houtA : g.collectOutput stA.ctx = .ok outA)
    (hallA : ∀ n ∈ g.nodes.map Prod.fst, n ∈ stA.ctx.completedNodes)
    (hcoh : ACoherent g stA.ctx)
    (hinv0 : AgreeInv stA.ctx (restorePersistence persMid input))
    (hplanB : g.planExecution (restorePersistence persMid input) =
      .ok orderB)
    (hstB : g.execSeq orderB ⟨[], [], restorePersistence persMid input,
      persMid, none⟩ = stB)
    (herrB : stB.err = none)
    (houtB : g.collectOutput stB.ctx = .ok outB) :
    ((g.invoke input GraphPersistence.empty).result = .ok outA ∧
     (g.invoke input persMid).result = .ok outB ∧ outB = outA) ∧
    (∀ n ∈ (restorePersistence persMid input).completedNodes,
      GraphEvent.startNode n ∉ (g.invoke input persMid).events) ∧
    (∀ n ∈ (g.invoke input persMid).invoked,
      n ∉ (restorePersistence persMid input).completedNodes ∧
      n ∉ (restorePersistence persMid input).failedNodes) := by
  have hinvokeA := invoke_eq_of_run g input GraphPersistence.empty orderA
    stA outA hnodes hent hexit hplanA hstA herrA houtA
  have hinvokeB := invoke_eq_of_run g input persMid orderB stB outB
    hnodes hent hexit hplanB hstB herrB houtB
  have hagree : AgreeInv stA.ctx stB.ctx := by
    rw [← hstB]
    exact c4_execSeq_agree g stA.ctx hstart hallA hcoh orderB _ hinv0
      (by rw [hstB]; exact herrB)
  refine ⟨⟨?_, ?_, ?_⟩, ?_, ?_⟩
  · rw [hinvokeA]
  · rw [hinvokeB]
  · exact collectOutput_agree g stA.ctx stB.ctx hagree outA outB houtA
      houtB
  · intro n hn
    rw [hinvokeB]
    simp only []
    intro hmem
    rcases List.mem_append.mp hmem with h | h
    · rcases List.mem_append.mp h with h2 | h2
      · simp at h2
      · have hnr := execSeq_no_restart g orderB ⟨[], [],
          restorePersistence persMid input, persMid, none⟩ n hn
          (fun ev hev => absurd hev (List.not_mem_nil ev))
        rw [hstB] at hnr
        exact hnr _ h2 rfl
    · simp at h
  · intro n hn
    rw [hinvokeB] at hn
    simp only [] at hn
    constructor
    · intro hcomp
      obtain ⟨new, hnew, hnmem⟩ := execSeq_invoked_unfinished g orderB
        ⟨[], [], restorePersistence persMid input, persMid, none⟩ n
        (Or.inl hcomp)
      rw [hstB] at hnew
      rw [hnew] at hn
      simp at hn
      exact hnmem hn
    · intro hfail
      obtain ⟨new, hnew, hnmem⟩ := execSeq_invoked_unfinished g orderB
        ⟨[], [], restorePersistence persMid input, persMid, none⟩ n
        (Or.inr hfail)
      rw [hstB] at hnew
      rw [hnew] at hn
      simp at hn
      exact hnmem hn

/-- Entry node of the C4 witness graph. -/
def c4NodeA : GraphNode :=
  GraphNode.mk "a" (constRunnable "ra" (.num 1)) ["input"] ["output"] [] false

/-- Exit node of the C4 witness graph, mapped from `a.output`. -/
def c4NodeB : GraphNode :=
  GraphNode.mk "b" (constRunnable "rb" (.num 2)) ["input"] ["output"]
    [("input", "a.output")] false

/-- The C4 witness graph: the chain `a → b`. -/
def c4Graph : RunnableGraph :=
  RunnableGraph.mk "G" [("a", c4NodeA), ("b", c4NodeB)]
    [GraphEdge.mk "a" "b" "output" "input" none]
    ["a"] ["b"] false 10 false

/-- The C4 witness snapshot: the persistence saved right after node `a`
completed during the fresh run. -/
def c4PersMid : GraphPersistence :=
  (c4Graph.execSeq ["a"] ⟨[], [],
    restorePersistence GraphPersistence.empty (.num 0),
    GraphPersistence.empty, none⟩).pers

/-- Witness for `c4_resume_idempotent` on `c4Graph`: resuming from the
snapshot taken after `a` completed yields the fresh run\'s result. -/
theorem c4_resume_idempotent_witness :
    ((c4Graph.invoke (.num 0) GraphPersistence.empty).result =
        .ok (.num 2) ∧
     (c4Graph.invoke (.num 0) c4PersMid).result = .ok (.num 2) ∧
     JsValue.num 2 = JsValue.num 2) ∧
    (∀ n ∈ (restorePersistence c4PersMid (.num 0)).completedNodes,
      GraphEvent.startNode n ∉ (c4Graph.invoke (.num 0) c4PersMid).events) ∧
    (∀ n ∈ (c4Graph.invoke (.num 0) c4PersMid).invoked,
      n ∉ (restorePersistence c4PersMid (.num 0)).completedNodes ∧
      n ∉ (restorePersistence c4PersMid (.num 0)).failedNodes) :=
  c4_resume_idempotent c4Graph (.num 0) c4PersMid ["a", "b"] ["b"] _ _
    (.num 2) (.num 2)
    (by decide) (by decide) (by decide) rfl rfl rfl rfl rfl
    (by decide)
    (by
      intro n node hlk hcomp
      by_cases ha : n = "a"
      · subst ha
        have hnode : node = c4NodeA := by
          rw [show List.lookup "a" c4Graph.nodes = some c4NodeA from rfl]
            at hlk
          exact (Option.some.inj hlk).symm
        subst hnode
        exact ⟨.num 0, [], .num 1, rfl, rfl, rfl, fun _ => rfl,
          fun _ hns => absurd ⟨rfl, rfl⟩ hns⟩
      · by_cases hb : n = "b"
        · subst hb
          have hnode : node = c4NodeB := by
            rw [show List.lookup "b" c4Graph.nodes = some c4NodeB from rfl]
              at hlk
            exact (Option.some.inj hlk).symm
          subst hnode
          exact ⟨.obj [("input", .num 1)], [], .num 2, rfl, rfl, rfl,
            fun _ => rfl, fun _ hns => absurd ⟨rfl, rfl⟩ hns⟩
        · rw [show c4Graph.nodes = [("a", c4NodeA), ("b", c4NodeB)]
            from rfl] at hlk
          simp only [List.lookup] at hlk
          rw [show (n == "a") = false by simp [ha],
            show (n == "b") = false by simp [hb]] at hlk
          simp at hlk)
    (by
      refine ⟨?_, ?_, ?_, rfl, rfl⟩
      · intro n hn
        rw [show (restorePersistence c4PersMid (.num 0)).completedNodes =
          ["a"] from rfl] at hn
        have h : n = "a" := by simpa using hn
        rw [h]
        decide
      · intro n hn
        rw [show (restorePersistence c4PersMid (.num 0)).completedNodes =
          ["a"] from rfl] at hn
        have h : n = "a" := by simpa using hn
        rw [h]
        rfl
      · intro key v h
        by_cases hk : key = "a.output"
        · subst hk
          rw [show List.lookup "a.output"
            (restorePersistence c4PersMid (.num 0)).nodeOutputs =
            some (.num 1) from rfl] at h
          rw [← Option.some.inj h]
          rfl
        · rw [show (restorePersistence c4PersMid (.num 0)).nodeOutputs =
            [("a.output", JsValue.num 1)] from rfl] at h
          simp only [List.lookup] at h
          rw [show (key == "a.output") = false by simp [hk]] at h
          simp at h)
    rfl rfl rfl rfl

end Runnable
